import Mathlib

/-
Verification of the trace-correlation core of the span-links-demo
repository (Go).  The Go source is shallowly embedded:

* `SpanContext` is the identity snapshot of a span: trace identity
  (16 bytes, modelled as a `Nat` below `2^128`), span identity
  (8 bytes, `Nat` below `2^64`), the sampling flags byte and the
  remote marker.
* Strings that carry trace identity (the W3C-style traceparent
  carrier) are modelled as `List Char`; only ASCII characters are
  relevant, so byte indexing in Go and character indexing here agree
  on every string the program constructs.
* `SimpleQueue.Publish` (queue.go) stamps the current span's identity
  into the message; the pure message transformation is
  `SimpleQueue.publishMsg` and the enqueue itself `SimpleQueue.Publish`.
* `SpanContextFromMessage` (otel.go) is the decoder.
-/

namespace SpanLinks

/-- Identity snapshot of a span (go.opentelemetry.io/otel/trace.SpanContext
as used by this repository): trace identity, span identity, flags byte,
remote marker.  Equality is field-wise. -/
structure SpanContext where
  traceID : Nat
  spanID : Nat
  traceFlags : Nat
  remote : Bool
deriving DecidableEq, Repr

/-- The invalid sentinel `trace.SpanContext{}`: all-zero identities. -/
def invalidSpanContext : SpanContext := ⟨0, 0, 0, false⟩

/-- `SpanContext.IsValid`: both identities non-zero (otel-go requires a
non-zero trace id and a non-zero span id). -/
def SpanContext.isValid (c : SpanContext) : Bool :=
  decide (c.traceID ≠ 0) && decide (c.spanID ≠ 0)

/-- Message shape from queue.go.  `Amount` is `Int` (the program only ever
creates the integral amounts `100 + 10*i`); `CreatedAt` is an abstract
timestamp.  The carrier fields `TraceParent` and `OriginalSpanID` are
character lists because the codec slices them positionally. -/
structure Order where
  ID : String
  CustomerID : String
  Amount : Int
  CreatedAt : Nat
  TraceParent : List Char
  TraceState : String
  OriginalSpanID : List Char
deriving DecidableEq, Repr

/-- Lowercase hex digit for a value below 16, as produced by Go's
`hex.EncodeToString` (used by `TraceID.String` / `SpanID.String`). -/
def hexDigitChar (d : Nat) : Char :=
  if d < 10 then Char.ofNat (48 + d) else Char.ofNat (87 + d)

/-- Fixed-width big-endian lowercase hex rendering of a natural number,
matching Go's `%x` rendering of the fixed-width byte arrays `TraceID`
and `SpanID` (32 resp. 16 digits). -/
def natToHex : Nat → Nat → List Char
  | 0, _ => []
  | w + 1, n => natToHex w (n / 16) ++ [hexDigitChar (n % 16)]

/-- Value of one hex character exactly as accepted by otel-go's
`decodeHex`: digits and lowercase `a`-`f` only (uppercase rejected). -/
def hexDigitVal (c : Char) : Option Nat :=
  if 48 ≤ c.toNat ∧ c.toNat ≤ 57 then some (c.toNat - 48)
  else if 97 ≤ c.toNat ∧ c.toNat ≤ 102 then some (c.toNat - 87)
  else none

/-- Left-to-right hex parse with accumulator. -/
def parseHexAux (acc : Nat) : List Char → Option Nat
  | [] => some acc
  | c :: cs =>
    match hexDigitVal c with
    | some d => parseHexAux (acc * 16 + d) cs
    | none => none

/-- Parse a hex string to its value; `none` on any non-hex character. -/
def parseHex (s : List Char) : Option Nat := parseHexAux 0 s

/-- otel-go `trace.TraceIDFromHex`: exactly 32 lowercase hex characters
and a non-zero value, else an error. -/
def traceIDFromHex (s : List Char) : Option Nat :=
  if s.length = 32 then
    match parseHex s with
    | some n => if n = 0 then none else some n
    | none => none
  else none

/-- otel-go `trace.SpanIDFromHex`: exactly 16 lowercase hex characters
and a non-zero value, else an error. -/
def spanIDFromHex (s : List Char) : Option Nat :=
  if s.length = 16 then
    match parseHex s with
    | some n => if n = 0 then none else some n
    | none => none
  else none

namespace SimpleQueue

/-- The message transformation performed by `SimpleQueue.Publish`
(queue.go lines 36-46): stamp the current span's identity into the
message.  `OriginalSpanID` gets the 16-digit span-id hex and
`TraceParent` gets `"00-" ++ 32hex(traceID) ++ "-" ++ 16hex(spanID)
++ "-01"` (the flags byte is the constant `01`). -/
def publishMsg (spanCtx : SpanContext) (order : Order) : Order :=
  { order with
    OriginalSpanID := natToHex 16 spanCtx.spanID
    TraceParent :=
      ['0', '0', '-'] ++ natToHex 32 spanCtx.traceID ++ ['-'] ++
        natToHex 16 spanCtx.spanID ++ ['-', '0', '1'] }

/-- `SimpleQueue.Publish` (queue.go lines 36-57): stamp the message,
then enqueue it, unless the cancellation token has fired while the
buffer was full, in which case the message is dropped and the
cancellation error returned.  The queue buffer is the FIFO list `q`;
`cancelled` is the oracle for the outcome of the blocking select. -/
def Publish (spanCtx : SpanContext) (order : Order) (q : List Order)
    (cancelled : Bool) : Except String (List Order) :=
  let msg := publishMsg spanCtx order
  if cancelled then Except.error "context cancelled"
  else Except.ok (q ++ [msg])

end SimpleQueue

/-- `SpanContextFromMessage` (otel.go lines 185-217): reject carriers
shorter than 53 characters, slice the trace-id hex out of positions
`[3:35]` and the span-id hex out of `[36:52]`, and return the invalid
sentinel whenever either segment fails to parse; on success the
reconstructed context is remote with the sampled flag forced on. -/
def SpanContextFromMessage (order : Order) : SpanContext :=
  if order.TraceParent.length < 53 then invalidSpanContext
  else
    match traceIDFromHex ((order.TraceParent.drop 3).take 32) with
    | none => invalidSpanContext
    | some tid =>
      match spanIDFromHex ((order.TraceParent.drop 36).take 16) with
      | none => invalidSpanContext
      | some sid => ⟨tid, sid, 1, true⟩

/-! ### Hex codec lemmas -/

theorem natToHex_length (w : Nat) : ∀ n, (natToHex w n).length = w := by
  induction w with
  | zero => intro n; rfl
  | succ w ih =>
    intro n
    simp [natToHex, ih]

theorem hexDigitVal_hexDigitChar {d : Nat} (h : d < 16) :
    hexDigitVal (hexDigitChar d) = some d := by
  interval_cases d <;> rfl

theorem parseHexAux_append (xs ys : List Char) : ∀ acc,
    parseHexAux acc (xs ++ ys) =
      match parseHexAux acc xs with
      | some a => parseHexAux a ys
      | none => none := by
  induction xs with
  | nil => intro acc; rfl
  | cons c cs ih =>
    intro acc
    simp only [List.cons_append, parseHexAux]
    cases hexDigitVal c with
    | none => rfl
    | some d => exact ih _

theorem parseHexAux_natToHex (w : Nat) : ∀ n acc, n < 16 ^ w →
    parseHexAux acc (natToHex w n) = some (acc * 16 ^ w + n) := by
  induction w with
  | zero =>
    intro n acc h
    interval_cases n
    simp [natToHex, parseHexAux]
  | succ w ih =>
    intro n acc h
    have hdiv : n / 16 < 16 ^ w := by
      apply Nat.div_lt_of_lt_mul
      rw [pow_succ, mul_comm] at h
      exact h
    rw [natToHex, parseHexAux_append, ih (n / 16) acc hdiv]
    simp only [parseHexAux, hexDigitVal_hexDigitChar (Nat.mod_lt n (by norm_num))]
    congr 1
    have := Nat.div_add_mod n 16
    ring_nf
    omega

theorem parseHex_natToHex {w n : Nat} (h : n < 16 ^ w) :
    parseHex (natToHex w n) = some n := by
  have := parseHexAux_natToHex w n 0 h
  simpa [parseHex] using this

theorem traceIDFromHex_natToHex {n : Nat} (h0 : n ≠ 0) (h : n < 16 ^ 32) :
    traceIDFromHex (natToHex 32 n) = some n := by
  simp [traceIDFromHex, natToHex_length, parseHex_natToHex h, h0]

theorem spanIDFromHex_natToHex {n : Nat} (h0 : n ≠ 0) (h : n < 16 ^ 16) :
    spanIDFromHex (natToHex 16 n) = some n := by
  simp [spanIDFromHex, natToHex_length, parseHex_natToHex h, h0]

/-- The traceparent built by `publishMsg` has exactly 55 characters. -/
theorem publishMsg_traceParent_length (c : SpanContext) (o : Order) :
    (SimpleQueue.publishMsg c o).TraceParent.length = 55 := by
  simp [SimpleQueue.publishMsg, natToHex_length]

theorem publishMsg_traceID_segment (c : SpanContext) (o : Order) :
    (((SimpleQueue.publishMsg c o).TraceParent.drop 3).take 32) =
      natToHex 32 c.traceID := by
  simp [SimpleQueue.publishMsg, List.drop_append_eq_append_drop,
    List.take_append_eq_append_take, natToHex_length]

theorem publishMsg_spanID_segment (c : SpanContext) (o : Order) :
    (((SimpleQueue.publishMsg c o).TraceParent.drop 36).take 16) =
      natToHex 16 c.spanID := by
  have h32 : (natToHex 32 c.traceID).length = 32 := natToHex_length 32 _
  have h16 : (natToHex 16 c.spanID).length = 16 := natToHex_length 16 _
  simp [SimpleQueue.publishMsg, List.drop_append_eq_append_drop,
    List.take_append_eq_append_take, h32, h16]

/-! ### Codec claims -/

/-- Concrete order used as a witness input. -/
def orderEx : Order := ⟨"ORDER-1", "CUST-1000", 100, 0, [], "", []⟩

/-- Concrete valid SpanContext (non-zero identities) whose flags byte is
`00` rather than the sampled `01`. -/
def cexCtx : SpanContext := ⟨1, 1, 0, false⟩

/-- C1 counterexample: for the valid SpanContext with flags `00`,
decoding the carrier produced by encoding does not preserve the flags
(the decoder forces the sampled flag on, and the encoder hard-codes the
flags segment to `01`), so `Decode (Encode ctx) = ctx` fails. -/
theorem roundTrip_flags_cex :
    cexCtx.isValid = true ∧
    (SpanContextFromMessage (SimpleQueue.publishMsg cexCtx orderEx)).traceFlags ≠
      cexCtx.traceFlags := by decide

/-- C1 (amended): for every valid SpanContext (non-zero, in-range trace
and span identities), decoding the carrier produced by `Publish`
yields a SpanContext with the same trace and span identity, the
sampled flags byte `01`, and the remote marker set true.  The original
flags are preserved exactly when they were already `01` (always the
case under the demo's AlwaysSample configuration). -/
theorem roundTrip_amended (c : SpanContext) (o : Order)
    (ht0 : c.traceID ≠ 0) (ht : c.traceID < 16 ^ 32)
    (hs0 : c.spanID ≠ 0) (hs : c.spanID < 16 ^ 16) :
    SpanContextFromMessage (SimpleQueue.publishMsg c o) =
      ⟨c.traceID, c.spanID, 1, true⟩ := by
  unfold SpanContextFromMessage
  rw [if_neg (by rw [publishMsg_traceParent_length]; omega)]
  rw [publishMsg_traceID_segment, publishMsg_spanID_segment,
    traceIDFromHex_natToHex ht0 ht, spanIDFromHex_natToHex hs0 hs]

/-- C1 witness: round-trip at the concrete context (5, 7, sampled). -/
theorem roundTrip_amended_witness :
    SpanContextFromMessage (SimpleQueue.publishMsg ⟨5, 7, 1, false⟩ orderEx) =
      ⟨5, 7, 1, true⟩ :=
  roundTrip_amended ⟨5, 7, 1, false⟩ orderEx (by decide) (by decide)
    (by decide) (by decide)

/-- C6: `SpanContextFromMessage` returns the invalid sentinel for every
carrier shorter than 53 characters and for every carrier whose trace-id
or span-id hex segment fails to parse; moreover for every input passing
the length check the two fixed-index segments are in bounds (exactly 32
resp. 16 characters long), so the slicing never panics.  The decoder is
a total function, so no input can make it panic. -/
theorem decode_robust (o : Order) :
    ((o.TraceParent.length < 53 ∨
        traceIDFromHex ((o.TraceParent.drop 3).take 32) = none ∨
        spanIDFromHex ((o.TraceParent.drop 36).take 16) = none) →
      SpanContextFromMessage o = invalidSpanContext) ∧
    (53 ≤ o.TraceParent.length →
      ((o.TraceParent.drop 3).take 32).length = 32 ∧
      ((o.TraceParent.drop 36).take 16).length = 16) := by
  constructor
  · intro h
    unfold SpanContextFromMessage
    by_cases hl : o.TraceParent.length < 53
    · simp [hl]
    · rcases h with h | h | h
      · exact absurd h hl
      · simp [hl, h]
      · cases htid : traceIDFromHex ((o.TraceParent.drop 3).take 32) with
        | none => simp [hl, htid]
        | some tid => simp [hl, htid, h]
  · intro h
    constructor
    · simp only [List.length_take, List.length_drop]
      omega
    · simp only [List.length_take, List.length_drop]
      omega

/-- C6 witness: the spec scenario `Decode("")` yields the sentinel. -/
theorem decode_robust_witness :
    SpanContextFromMessage orderEx = invalidSpanContext :=
  (decode_robust orderEx).1 (Or.inl (by decide))

/-- C10: `Publish` enqueues (when the cancellation token has not fired)
exactly the argument order with only `TraceParent` and `OriginalSpanID`
rewritten: `ID`, `CustomerID`, `Amount`, `CreatedAt` and `TraceState`
are those of the argument, and `OriginalSpanID` equals the span-identity
hex segment (positions 36-52) embedded in `TraceParent`. -/
theorem publish_frame (c : SpanContext) (o : Order) (q : List Order) :
    SimpleQueue.Publish c o q false =
      Except.ok (q ++ [SimpleQueue.publishMsg c o]) ∧
    (SimpleQueue.publishMsg c o).ID = o.ID ∧
    (SimpleQueue.publishMsg c o).CustomerID = o.CustomerID ∧
    (SimpleQueue.publishMsg c o).Amount = o.Amount ∧
    (SimpleQueue.publishMsg c o).CreatedAt = o.CreatedAt ∧
    (SimpleQueue.publishMsg c o).TraceState = o.TraceState ∧
    (SimpleQueue.publishMsg c o).OriginalSpanID =
      (((SimpleQueue.publishMsg c o).TraceParent.drop 36).take 16) := by
  refine ⟨rfl, rfl, rfl, rfl, rfl, rfl, ?_⟩
  exact (publishMsg_spanID_segment c o).symm

/-! ### Span operation log

The tracer capability is an external collaborator of the core (spec §1,
§6): the repository only calls `Start` / `End` / `AddLink` /
`RecordError` / `AddEvent` on it.  The model records every such call in
an append-only operation log, so "ended exactly once" and "carries
exactly one link" become statements about operation counts. -/

/-- Span kinds used by the repository. -/
inductive SpanKind
  | producer
  | consumer
  | internalKind
  | client
deriving DecidableEq, Repr

/-- One tracer-capability call observed by the model. -/
inductive SpanOp
  | start (sid : Nat) (name : String) (kind : SpanKind) (links : List SpanContext)
  | endOp (sid : Nat)
  | addLink (sid : Nat) (target : SpanContext)
  | recordError (sid : Nat) (msg : String)
  | addEvent (sid : Nat) (name : String)
deriving DecidableEq, Repr

/-- The tracer state: the next fresh span handle and the call log. -/
structure TraceLog where
  nextSid : Nat
  ops : List SpanOp
deriving DecidableEq, Repr

/-- A fresh tracer; span handles start at 1 so that every span identity
is non-zero (otel span ids are non-zero random bytes). -/
def freshLog : TraceLog := ⟨1, []⟩

/-- Modelled from the spec: the tracer capability (an external
collaborator, not part of this repository) starts a span with a name,
kind and link list, where "a link's target must be a valid
(non-sentinel) SpanContext or it is dropped" (spec §3, Link
invariant). -/
def TraceLog.start (L : TraceLog) (name : String) (k : SpanKind)
    (links : List SpanContext) : Nat × TraceLog :=
  (L.nextSid, ⟨L.nextSid + 1,
    L.ops ++ [SpanOp.start L.nextSid name k (links.filter SpanContext.isValid)]⟩)

/-- `span.End()`: one End invocation is logged per call. -/
def TraceLog.endSp (L : TraceLog) (s : Nat) : TraceLog :=
  ⟨L.nextSid, L.ops ++ [SpanOp.endOp s]⟩

/-- `span.AddLink(link)` (post-creation link). -/
def TraceLog.addLink (L : TraceLog) (s : Nat) (t : SpanContext) : TraceLog :=
  ⟨L.nextSid, L.ops ++ [SpanOp.addLink s t]⟩

/-- `span.RecordError(err)`. -/
def TraceLog.recordError (L : TraceLog) (s : Nat) (m : String) : TraceLog :=
  ⟨L.nextSid, L.ops ++ [SpanOp.recordError s m]⟩

/-- `span.AddEvent(name, attrs)`. -/
def TraceLog.addEvent (L : TraceLog) (s : Nat) (e : String) : TraceLog :=
  ⟨L.nextSid, L.ops ++ [SpanOp.addEvent s e]⟩

/-- Is this operation an End of span `s`? -/
def isEndOf (s : Nat) : SpanOp → Bool
  | .endOp t => t = s
  | _ => false

/-- Is this operation an AddLink on span `s`? -/
def isLinkOf (s : Nat) : SpanOp → Bool
  | .addLink t _ => t = s
  | _ => false

/-- Is this operation a span start? -/
def isStartOp : SpanOp → Bool
  | .start _ _ _ _ => true
  | _ => false

/-- Number of End invocations on span `s`. -/
def TraceLog.endCount (L : TraceLog) (s : Nat) : Nat :=
  (L.ops.filter (isEndOf s)).length

/-- Number of post-creation AddLink invocations on span `s`. -/
def TraceLog.linkCount (L : TraceLog) (s : Nat) : Nat :=
  (L.ops.filter (isLinkOf s)).length

/-- Handles of all spans started in an op list. -/
def startSids (l : List SpanOp) : List Nat :=
  l.filterMap fun o =>
    match o with
    | .start s _ _ _ => some s
    | _ => none

/-! ### Constants (constants.go) -/

def DefaultQueueCapacity : Nat := 100

def DefaultBatchSize : Nat := 3

def DefaultWorkerCount : Nat := 2

/-! ### Worker (worker.go `processOrderWithLink`) -/

/-- Side-channel record emitted by a worker after finishing processing
(worker.go `OrderSpanContext`). -/
structure OrderSpanContext where
  OrderID : String
  Ctx : SpanContext
deriving DecidableEq, Repr

/-- Non-blocking send on the bounded side channel: drop silently if the
channel is full (worker.go lines 122-128); `none` means no sink is
configured. -/
def trySend (sink : Option (List OrderSpanContext)) (rec : OrderSpanContext) :
    Option (List OrderSpanContext) :=
  match sink with
  | none => none
  | some buf =>
    if buf.length < DefaultQueueCapacity then some (buf ++ [rec]) else some buf

namespace WorkerService

/-- `processOrderWithLink` (worker.go lines 67-131): validate the order
id, decode the carrier, start a consumer-kind `ProcessOrder` span whose
requested link list is the decoded context (the tracer keeps it only if
valid), run the three child steps (which always succeed in this
repository), emit the finished span's context on the sink best-effort,
and end the span.  `tid` is the worker-side trace identity of the new
span. -/
def processOrderWithLink (tid : Nat) (order : Order) (L : TraceLog)
    (sink : Option (List OrderSpanContext)) :
    Except String (TraceLog × Option (List OrderSpanContext)) :=
  if order.ID = "" then Except.error "order ID is required"
  else
    let originalSpanCtx := SpanContextFromMessage order
    let (s, L1) := L.start "ProcessOrder" SpanKind.consumer [originalSpanCtx]
    let (sv, L2) := L1.start "ValidateOrder" SpanKind.internalKind []
    let L3 := L2.endSp sv
    let (sp, L4) := L3.start "ProcessPayment" SpanKind.internalKind []
    let L5 := L4.endSp sp
    let (ss, L6) := L5.start "ShipOrder" SpanKind.internalKind []
    let L7 := L6.endSp ss
    let sink2 := trySend sink ⟨order.ID, ⟨tid, s, 1, false⟩⟩
    Except.ok (L7.endSp s, sink2)

end WorkerService

/-- C4: for every message with a non-empty identity, the worker's
consumer-kind `ProcessOrder` span is created with link list
`[decoded]` exactly when the decoded SpanContext is valid and with an
empty link list when the carrier decodes to the invalid sentinel; the
theorem exhibits the complete tracer-call trace of
`processOrderWithLink`, showing no other link is ever attached to the
processing span. -/
theorem worker_backward_link (tid : Nat) (order : Order) (L : TraceLog)
    (sink : Option (List OrderSpanContext)) (h : order.ID ≠ "") :
    WorkerService.processOrderWithLink tid order L sink =
      Except.ok
        (⟨L.nextSid + 4,
          L.ops ++
            [SpanOp.start L.nextSid "ProcessOrder" SpanKind.consumer
                (if (SpanContextFromMessage order).isValid then
                  [SpanContextFromMessage order] else []),
              SpanOp.start (L.nextSid + 1) "ValidateOrder" SpanKind.internalKind [],
              SpanOp.endOp (L.nextSid + 1),
              SpanOp.start (L.nextSid + 2) "ProcessPayment" SpanKind.internalKind [],
              SpanOp.endOp (L.nextSid + 2),
              SpanOp.start (L.nextSid + 3) "ShipOrder" SpanKind.internalKind [],
              SpanOp.endOp (L.nextSid + 3),
              SpanOp.endOp L.nextSid]⟩,
          trySend sink ⟨order.ID, ⟨tid, L.nextSid, 1, false⟩⟩) := by
  unfold WorkerService.processOrderWithLink
  rw [if_neg h]
  cases hv : (SpanContextFromMessage order).isValid <;>
    simp [TraceLog.start, TraceLog.endSp, List.filter_cons, hv]

/-- C4 witness: a concrete order whose empty carrier decodes to the
sentinel, giving an empty link list on the processing span. -/
theorem worker_backward_link_witness :
    WorkerService.processOrderWithLink 1 orderEx freshLog none =
      Except.ok
        (⟨5,
          [SpanOp.start 1 "ProcessOrder" SpanKind.consumer
              (if (SpanContextFromMessage orderEx).isValid then
                [SpanContextFromMessage orderEx] else []),
            SpanOp.start 2 "ValidateOrder" SpanKind.internalKind [],
            SpanOp.endOp 2,
            SpanOp.start 3 "ProcessPayment" SpanKind.internalKind [],
            SpanOp.endOp 3,
            SpanOp.start 4 "ShipOrder" SpanKind.internalKind [],
            SpanOp.endOp 4,
            SpanOp.endOp 1]⟩,
          trySend none ⟨orderEx.ID, ⟨1, 1, 1, false⟩⟩) :=
  worker_backward_link 1 orderEx freshLog none (by decide)

/-! ### Retry chain (examples/retry.go `RetryExample`) -/

/-- The retry budget hard-coded in `RetryExample` (`maxRetries := 3`). -/
def maxRetries : Nat := 3

/-- The backoff computed before the next retry (retry.go line 85):
`time.Duration(attempt) * 100 * time.Millisecond`, in milliseconds. -/
def backoffMs (attempt : Nat) : Nat := attempt * 100

/-- `simulateProcessing`: attempt 1 always fails (to demonstrate the
retry); later attempts succeed according to the oracle `succ`, which
stands for the 70% coin flip. -/
def simulateProcessing (succ : Nat → Bool) (attempt : Nat) : Bool :=
  if attempt = 1 then false else succ attempt

/-- Span mutations performed by `simulateProcessing` on the attempt
span: an event on success, a recorded error on failure (the SetStatus
calls carry no information the claims touch and are not logged). -/
def simulateOps (succ : Nat → Bool) (attempt : Nat) (s : Nat) (L : TraceLog) :
    Bool × TraceLog :=
  if simulateProcessing succ attempt then (true, L.addEvent s "Processing succeeded")
  else (false, L.recordError s ("processing failed on attempt " ++ toString attempt))

/-- The retry loop of `RetryExample` (retry.go lines 45-87): for each
attempt from 2 up to the budget, start a fresh-trace `ProcessRequest`
span carrying one link to the original attempt's SpanContext, process,
end the span, stop on success, otherwise sleep `backoffMs attempt` and
continue.  The recorded `sleeps` list collects the backoff sleeps in
order.  Fuel `n` is the number of attempts still allowed. -/
def RetryExampleLoop (origCtx : SpanContext) (succ : Nat → Bool) :
    Nat → Nat → TraceLog → List Nat → TraceLog × List Nat
  | 0, _, L, sleeps => (L, sleeps)
  | n + 1, attempt, L, sleeps =>
    let (s, L1) := L.start "ProcessRequest" SpanKind.internalKind [origCtx]
    let (ok, L2) := simulateOps succ attempt s L1
    let L3 := L2.endSp s
    if ok then (L3, sleeps)
    else RetryExampleLoop origCtx succ n (attempt + 1) L3 (sleeps ++ [backoffMs attempt])

/-- `RetryExample` (retry.go lines 18-93): the original attempt's span,
its SpanContext snapshot, the always-failing first processing attempt,
then the retry loop over attempts 2..maxRetries.  Returns the final
tracer log and the list of backoff sleeps performed. -/
def RetryExample (tid : Nat) (succ : Nat → Bool) (L : TraceLog) :
    TraceLog × List Nat :=
  let (s1, L1) := L.start "ProcessRequest" SpanKind.internalKind []
  let origCtx : SpanContext := ⟨tid, s1, 1, false⟩
  let (ok, L2) := simulateOps succ 1 s1 L1
  let L3 := L2.endSp s1
  if ok then (L3, [])
  else RetryExampleLoop origCtx succ (maxRetries - 1) 2 L3 []

/-- Every span started by the retry loop carries exactly the
(validity-filtered) original link list and a handle at or above the
log's next handle. -/
theorem RetryExampleLoop_start_ops (origCtx : SpanContext) (succ : Nat → Bool) :
    ∀ (n attempt : Nat) (L : TraceLog) (sleeps : List Nat)
      (sid : Nat) (name : String) (k : SpanKind) (lnks : List SpanContext),
      SpanOp.start sid name k lnks ∈
          (RetryExampleLoop origCtx succ n attempt L sleeps).1.ops →
      SpanOp.start sid name k lnks ∈ L.ops ∨
        (lnks = [origCtx].filter SpanContext.isValid ∧ L.nextSid ≤ sid) := by
  intro n
  induction n with
  | zero =>
    intro attempt L sleeps sid name k lnks hmem
    exact Or.inl hmem
  | succ n ih =>
    intro attempt L sleeps sid name k lnks hmem
    simp only [RetryExampleLoop, TraceLog.start, simulateOps, TraceLog.addEvent,
      TraceLog.recordError, TraceLog.endSp] at hmem
    by_cases hs : simulateProcessing succ attempt = true
    · simp only [hs, if_true] at hmem
      simp only [List.append_assoc, List.mem_append, List.mem_singleton] at hmem
      rcases hmem with hmem | hmem | hmem | hmem
      · exact Or.inl hmem
      · cases hmem
        exact Or.inr ⟨rfl, Nat.le_refl _⟩
      · cases hmem
      · cases hmem
    · simp only [hs, if_false, Bool.false_eq_true] at hmem
      rcases ih (attempt + 1) _ _ sid name k lnks hmem with hmem2 | hmem2
      · simp only [List.append_assoc, List.mem_append, List.mem_singleton] at hmem2
        rcases hmem2 with hmem2 | hmem2 | hmem2 | hmem2
        · exact Or.inl hmem2
        · cases hmem2
          exact Or.inr ⟨rfl, Nat.le_refl _⟩
        · cases hmem2
        · cases hmem2
      · exact Or.inr ⟨hmem2.1, by simpa using Nat.le_of_succ_le hmem2.2⟩

/-- C7: in the retry chain started from a fresh tracer with a non-zero
trace identity, every span other than the original attempt (handle 1)
carries exactly one link, whose target is the original attempt's
SpanContext `⟨tid, 1, sampled, local⟩`; since every retry span's own
handle is at least 2, no link ever targets a retry attempt — in
particular never the immediately preceding one. -/
theorem retry_links_original (tid : Nat) (succ : Nat → Bool) (htid : tid ≠ 0)
    (sid : Nat) (name : String) (k : SpanKind) (lnks : List SpanContext)
    (hmem : SpanOp.start sid name k lnks ∈ (RetryExample tid succ freshLog).1.ops)
    (hsid : sid ≠ 1) :
    lnks = [(⟨tid, 1, 1, false⟩ : SpanContext)] ∧ 2 ≤ sid := by
  have hvalid : ([(⟨tid, 1, 1, false⟩ : SpanContext)].filter SpanContext.isValid) =
      [(⟨tid, 1, 1, false⟩ : SpanContext)] := by
    simp [List.filter_cons, SpanContext.isValid, htid]
  simp only [RetryExample, freshLog, TraceLog.start, simulateOps,
    simulateProcessing, TraceLog.recordError, TraceLog.endSp] at hmem
  norm_num at hmem
  rcases RetryExampleLoop_start_ops _ succ _ _ _ _ sid name k lnks hmem with
    hmem2 | hmem2
  · simp only [List.nil_append, List.mem_cons] at hmem2
    rcases hmem2 with hmem2 | hmem2 | hmem2 | hmem2
    · cases hmem2
      exact absurd rfl hsid
    · cases hmem2
    · cases hmem2
    · exact absurd hmem2 (List.not_mem_nil _)
  · exact ⟨hvalid ▸ hmem2.1, hmem2.2⟩

/-- C7 witness: with the all-failing oracle, the attempt-2 span (handle
2) is started with exactly the link to the original attempt. -/
theorem retry_links_original_witness :
    ([(⟨1, 1, 1, false⟩ : SpanContext)] = [(⟨1, 1, 1, false⟩ : SpanContext)]) ∧
      2 ≤ 2 :=
  retry_links_original 1 (fun _ => false) (by decide) 2 "ProcessRequest"
    SpanKind.internalKind [⟨1, 1, 1, false⟩] (by decide) (by decide)

/-- C5: the backoff schedule of the retry chain is linear, not
exponential.  With the all-failing oracle the run sleeps exactly
`[200, 300]` milliseconds (`backoffMs 2`, `backoffMs 3`) and starts
exactly `maxRetries = 3` attempt spans (budget exhausted); consecutive
backoffs differ by the constant additive increment 100 ms, and the
schedule violates the constant-ratio (geometric) law already at
attempts 2, 3, 4 (`300^2 ≠ 200*400`); with an oracle succeeding at
attempt 2 the chain stops at the first success with no sleep. -/
theorem retry_backoff_linear_not_exponential :
    (RetryExample 1 (fun _ => false) freshLog).2 = [backoffMs 2, backoffMs 3] ∧
    backoffMs 2 = 200 ∧ backoffMs 3 = 300 ∧
    ((RetryExample 1 (fun _ => false) freshLog).1.ops.filter isStartOp).length =
      maxRetries ∧
    (∀ j, backoffMs (j + 1) = backoffMs j + 100) ∧
    backoffMs 3 * backoffMs 3 ≠ backoffMs 2 * backoffMs 4 ∧
    (RetryExample 1 (fun a => decide (a = 2)) freshLog).2 = [] ∧
    ((RetryExample 1 (fun a => decide (a = 2)) freshLog).1.ops.filter
        isStartOp).length = 2 := by
  refine ⟨by decide, rfl, rfl, by decide, ?_, by decide, by decide, by decide⟩
  intro j
  simp [backoffMs]
  ring

/-! ### Producer (producer.go `publishInternal`)

The per-item publish outcome (success, or a cancellation error from the
blocking `Publish` select) is given by the oracle `pubFails`; the
producer-assigned unique order identities (`"ORDER-" + uuid[:8]`) are
given by the generator `genID`.  `tid` is the producer-side trace
identity; item spans take their span identity from their tracer handle.
Timestamps are irrelevant to every claim and fixed at 0. -/

/-- State threaded through the publish loop. -/
structure PubState where
  log : TraceLog
  queue : List Order
  orderSpans : List (String × Nat)
  published : Nat
  lastErr : Option String
deriving Repr

/-- The domain message created for item `i` (producer.go lines 64-69). -/
def mkOrder (genID : Nat → String) (i : Nat) : Order :=
  { ID := genID i
    CustomerID := "CUST-" ++ toString (1000 + i)
    Amount := 100 + 10 * (i : Int)
    CreatedAt := 0
    TraceParent := []
    TraceState := ""
    OriginalSpanID := [] }

/-- The error wrapped around a failed item publish (the cause suffix is
not tracked). -/
def pubErrMsg (id : String) : String := "failed to publish order " ++ id

/-- One iteration of the publish loop (producer.go lines 63-92): start
the internal-kind item span; on publish failure record the error and
end the span immediately; on success enqueue the stamped message,
register the span under the order id, and end it at once unless spans
are kept open. -/
def publishStep (tid : Nat) (pubFails : Nat → Bool) (genID : Nat → String)
    (keepOpen : Bool) (st : PubState) (i : Nat) : PubState :=
  let order := mkOrder genID i
  let (s, L1) := st.log.start "PublishOrder" SpanKind.internalKind []
  if pubFails i then
    { st with
      log := (L1.recordError s (pubErrMsg order.ID)).endSp s
      lastErr := some (pubErrMsg order.ID) }
  else
    let msg := SimpleQueue.publishMsg ⟨tid, s, 1, false⟩ order
    let st1 : PubState :=
      { st with
        log := L1
        queue := st.queue ++ [msg]
        orderSpans := st.orderSpans ++ [(order.ID, s)]
        published := st.published + 1 }
    if keepOpen then st1 else { st1 with log := st1.log.endSp s }

/-- The publish loop over items `i, i+1, ..., i+n-1`. -/
def publishLoop (tid : Nat) (pubFails : Nat → Bool) (genID : Nat → String)
    (keepOpen : Bool) : Nat → Nat → PubState → PubState
  | _, 0, st => st
  | i, n + 1, st =>
    publishLoop tid pubFails genID keepOpen (i + 1) n
      (publishStep tid pubFails genID keepOpen st i)

/-- Result of `publishInternal`: final tracer log, queue contents,
order-id-to-span map, published count, the batch span handle (`none`
when no span was created), and the error if any. -/
structure PubResult where
  log : TraceLog
  queue : List Order
  orderSpans : List (String × Nat)
  published : Nat
  batchSpan : Option Nat
  error : Option String
deriving Repr

/-- `publishInternal` (producer.go lines 47-120): reject non-positive
counts before any span is created; start the producer-kind batch span;
run the loop; with zero successes record the last error on the batch
span, end it unless spans are kept open, and fail; otherwise add the
"Batch published" event and, unless spans are kept open, end the batch
span and then End every span registered in the order-span map (note the
successful item spans were already ended inside the loop). -/
def publishInternal (tid : Nat) (pubFails : Nat → Bool) (genID : Nat → String)
    (count : Int) (keepOpen : Bool) (q0 : List Order) (L0 : TraceLog) : PubResult :=
  if count ≤ 0 then
    ⟨L0, q0, [], 0, none, some "batch size must be greater than zero"⟩
  else
    let (b, L1) := L0.start "PublishOrderBatch" SpanKind.producer []
    let st := publishLoop tid pubFails genID keepOpen 0 count.toNat
      ⟨L1, q0, [], 0, none⟩
    if st.published = 0 then
      let L2 := st.log.recordError b (st.lastErr.getD "")
      let L3 := if keepOpen then L2 else L2.endSp b
      ⟨L3, st.queue, st.orderSpans, 0, some b,
        some ("failed to publish any orders: " ++ st.lastErr.getD "")⟩
    else
      let L2 := st.log.addEvent b "Batch published"
      let L3 := if keepOpen then L2 else
        st.orderSpans.foldl (fun l p => l.endSp p.2) (L2.endSp b)
      ⟨L3, st.queue, st.orderSpans, st.published, some b, none⟩

/-- `PublishOrderBatch` (producer.go lines 33-39): closed mode. -/
def PublishOrderBatch (tid : Nat) (pubFails : Nat → Bool) (genID : Nat → String)
    (count : Int) (q0 : List Order) (L0 : TraceLog) : PubResult :=
  publishInternal tid pubFails genID count false q0 L0

/-- `PublishOrderBatchWithOpenSpan` (producer.go lines 43-45): open
mode, caller owns ending the returned spans. -/
def PublishOrderBatchWithOpenSpan (tid : Nat) (pubFails : Nat → Bool)
    (genID : Nat → String) (count : Int) (q0 : List Order) (L0 : TraceLog) :
    PubResult :=
  publishInternal tid pubFails genID count true q0 L0

/-! ### Closed-form characterization of the publish loop -/

/-- Tracer calls emitted by the loop for items `i..i+n-1`, first item
span handle `k`. -/
def loopOps (pubFails : Nat → Bool) (genID : Nat → String) (keepOpen : Bool) :
    Nat → Nat → Nat → List SpanOp
  | _, _, 0 => []
  | i, k, n + 1 =>
    (SpanOp.start k "PublishOrder" SpanKind.internalKind [] ::
      (if pubFails i then
        [SpanOp.recordError k (pubErrMsg (genID i)), SpanOp.endOp k]
      else if keepOpen then [] else [SpanOp.endOp k])) ++
      loopOps pubFails genID keepOpen (i + 1) (k + 1) n

/-- Order-span registrations made by the loop. -/
def loopPairs (pubFails : Nat → Bool) (genID : Nat → String) :
    Nat → Nat → Nat → List (String × Nat)
  | _, _, 0 => []
  | i, k, n + 1 =>
    (if pubFails i then [] else [(genID i, k)]) ++
      loopPairs pubFails genID (i + 1) (k + 1) n

/-- Messages enqueued by the loop. -/
def loopMsgs (tid : Nat) (pubFails : Nat → Bool) (genID : Nat → String) :
    Nat → Nat → Nat → List Order
  | _, _, 0 => []
  | i, k, n + 1 =>
    (if pubFails i then []
     else [SimpleQueue.publishMsg ⟨tid, k, 1, false⟩ (mkOrder genID i)]) ++
      loopMsgs tid pubFails genID (i + 1) (k + 1) n

/-- Number of successful publishes among items `i..i+n-1`. -/
def loopPub (pubFails : Nat → Bool) : Nat → Nat → Nat
  | _, 0 => 0
  | i, n + 1 => (if pubFails i then 0 else 1) + loopPub pubFails (i + 1) n

/-- The last publish error seen by the loop. -/
def loopLastErr (pubFails : Nat → Bool) (genID : Nat → String) :
    Nat → Option String → Nat → Option String
  | _, e, 0 => e
  | i, e, n + 1 =>
    loopLastErr pubFails genID (i + 1)
      (if pubFails i then some (pubErrMsg (genID i)) else e) n

/-- Master characterization of the publish loop: the final state is the
initial one extended by the closed-form segments. -/
theorem publishLoop_eq (tid : Nat) (pubFails : Nat → Bool) (genID : Nat → String)
    (keepOpen : Bool) :
    ∀ (n i : Nat) (st : PubState),
      publishLoop tid pubFails genID keepOpen i n st =
        { log := ⟨st.log.nextSid + n,
            st.log.ops ++ loopOps pubFails genID keepOpen i st.log.nextSid n⟩
          queue := st.queue ++ loopMsgs tid pubFails genID i st.log.nextSid n
          orderSpans := st.orderSpans ++ loopPairs pubFails genID i st.log.nextSid n
          published := st.published + loopPub pubFails i n
          lastErr := loopLastErr pubFails genID i st.lastErr n } := by
  intro n
  induction n with
  | zero =>
    intro i st
    simp [publishLoop, loopOps, loopMsgs, loopPairs, loopPub, loopLastErr]
  | succ n ih =>
    intro i st
    obtain ⟨⟨ns, ops⟩, q, osp, pc, le⟩ := st
    rw [publishLoop, ih]
    unfold publishStep
    by_cases hf : pubFails i
    · simp only [hf, if_true, TraceLog.start, TraceLog.recordError, TraceLog.endSp,
        loopOps, loopMsgs, loopPairs, loopPub, loopLastErr, mkOrder]
      simp only [PubState.mk.injEq, TraceLog.mk.injEq, List.append_assoc,
        List.filter_nil, List.cons_append, List.nil_append, List.singleton_append]
      refine ⟨⟨by omega, trivial⟩, trivial, trivial, by omega, trivial⟩
    · by_cases hk : keepOpen
      · simp only [hf, hk, if_true, if_false, Bool.false_eq_true, TraceLog.start,
          loopOps, loopMsgs, loopPairs, loopPub, loopLastErr, mkOrder]
        simp only [PubState.mk.injEq, TraceLog.mk.injEq, List.append_assoc,
          List.filter_nil, List.cons_append, List.nil_append, List.singleton_append]
        refine ⟨⟨by omega, trivial⟩, trivial, trivial, by omega, trivial⟩
      · simp only [hf, hk, if_false, Bool.false_eq_true, TraceLog.start,
          TraceLog.endSp, loopOps, loopMsgs, loopPairs, loopPub, loopLastErr, mkOrder]
        simp only [PubState.mk.injEq, TraceLog.mk.injEq, List.append_assoc,
          List.filter_nil, List.cons_append, List.nil_append, List.singleton_append]
        refine ⟨⟨by omega, trivial⟩, trivial, trivial, by omega, trivial⟩

/-! ### Counting lemmas -/

/-- End invocations on span `s` in an op list. -/
def opsEndCount (l : List SpanOp) (s : Nat) : Nat :=
  (l.filter (isEndOf s)).length

/-- AddLink invocations on span `s` in an op list. -/
def opsLinkCount (l : List SpanOp) (s : Nat) : Nat :=
  (l.filter (isLinkOf s)).length

theorem endCount_eq_opsEndCount (L : TraceLog) (s : Nat) :
    L.endCount s = opsEndCount L.ops s := rfl

theorem linkCount_eq_opsLinkCount (L : TraceLog) (s : Nat) :
    L.linkCount s = opsLinkCount L.ops s := rfl

theorem opsEndCount_nil (s : Nat) : opsEndCount [] s = 0 := rfl

theorem opsLinkCount_nil (s : Nat) : opsLinkCount [] s = 0 := rfl

theorem opsEndCount_append (a b : List SpanOp) (s : Nat) :
    opsEndCount (a ++ b) s = opsEndCount a s + opsEndCount b s := by
  simp [opsEndCount, List.filter_append]

theorem opsEndCount_cons (o : SpanOp) (l : List SpanOp) (s : Nat) :
    opsEndCount (o :: l) s = (if isEndOf s o then 1 else 0) + opsEndCount l s := by
  by_cases h : isEndOf s o <;> simp [opsEndCount, List.filter_cons, h, Nat.add_comm]

theorem opsLinkCount_append (a b : List SpanOp) (s : Nat) :
    opsLinkCount (a ++ b) s = opsLinkCount a s + opsLinkCount b s := by
  simp [opsLinkCount, List.filter_append]

theorem opsLinkCount_cons (o : SpanOp) (l : List SpanOp) (s : Nat) :
    opsLinkCount (o :: l) s = (if isLinkOf s o then 1 else 0) + opsLinkCount l s := by
  by_cases h : isLinkOf s o <;> simp [opsLinkCount, List.filter_cons, h, Nat.add_comm]

theorem startSids_append (a b : List SpanOp) :
    startSids (a ++ b) = startSids a ++ startSids b := by
  simp [startSids, List.filterMap_append]

theorem startSids_nil : startSids [] = [] := rfl

/-- Handles ended by the publish loop, in order: item span `k+j` is
ended inside the loop exactly when item `i+j`'s publish failed or spans
are not kept open. -/
def loopEnds (pubFails : Nat → Bool) (keepOpen : Bool) : Nat → Nat → Nat → List Nat
  | _, _, 0 => []
  | i, k, n + 1 =>
    (if pubFails i || !keepOpen then [k] else []) ++
      loopEnds pubFails keepOpen (i + 1) (k + 1) n

/-- Occurrences of `s` in a list of handles. -/
def natCount (s : Nat) (l : List Nat) : Nat :=
  (l.filter (fun t => t = s)).length

theorem natCount_of_not_mem {s : Nat} {l : List Nat} (h : s ∉ l) :
    natCount s l = 0 := by
  induction l with
  | nil => rfl
  | cons a l ih =>
    have ha : a ≠ s := fun he => h (he ▸ List.mem_cons_self a l)
    simp only [List.mem_cons, not_or] at h
    simp [natCount, List.filter_cons, ha]
    simpa [natCount] using ih h.2

theorem natCount_of_nodup_mem {s : Nat} {l : List Nat} (hd : l.Nodup)
    (h : s ∈ l) : natCount s l = 1 := by
  induction l with
  | nil => cases h
  | cons a l ih =>
    rw [List.nodup_cons] at hd
    rcases List.mem_cons.mp h with rfl | h2
    · have : natCount s l = 0 := natCount_of_not_mem hd.1
      simp [natCount, List.filter_cons] at this ⊢
      simpa using this
    · have ha : a ≠ s := fun he => hd.1 (he ▸ h2)
      have := ih hd.2 h2
      simp [natCount, List.filter_cons, ha] at this ⊢
      simpa using this

/-- End invocations of the publish loop are exactly its ends list. -/
theorem opsEndCount_loopOps (pubFails : Nat → Bool) (genID : Nat → String) :
    ∀ (n : Nat) (keepOpen : Bool) (i k s : Nat),
    opsEndCount (loopOps pubFails genID keepOpen i k n) s =
      natCount s (loopEnds pubFails keepOpen i k n) := by
  intro n
  induction n with
  | zero => intro keepOpen i k s; rfl
  | succ n ih =>
    intro keepOpen i k s
    by_cases hf : pubFails i = true <;> by_cases hk : keepOpen = true <;>
      by_cases hks : k = s <;>
      simp [loopOps, loopEnds, hf, hk, hks, opsEndCount_cons, opsEndCount_append,
        isEndOf, List.filter_cons, List.filter_append, natCount,
        Nat.add_comm] <;>
      exact ih _ (i + 1) _ s

theorem loopEnds_mem (pubFails : Nat → Bool) (keepOpen : Bool) :
    ∀ (n i k s : Nat),
    s ∈ loopEnds pubFails keepOpen i k n ↔
      k ≤ s ∧ s < k + n ∧ (pubFails (i + (s - k)) || !keepOpen) = true := by
  intro n
  induction n with
  | zero =>
    intro i k s
    simp only [loopEnds, List.not_mem_nil, false_iff]
    rintro ⟨h1, h2, h3⟩
    omega
  | succ n ih =>
    intro i k s
    by_cases hc : (pubFails i || !keepOpen) = true
    · have hrw : loopEnds pubFails keepOpen i k (n + 1) =
          k :: loopEnds pubFails keepOpen (i + 1) (k + 1) n := by
        simp [loopEnds, hc]
      rw [hrw]
      simp only [List.mem_cons, ih (i + 1) (k + 1)]
      constructor
      · rintro (rfl | ⟨h1, h2, h3⟩)
        · exact ⟨Nat.le_refl s, by omega, by simpa using hc⟩
        · exact ⟨by omega, by omega,
            by rw [show i + (s - k) = i + 1 + (s - (k + 1)) by omega]; exact h3⟩
      · rintro ⟨h1, h2, h3⟩
        by_cases hks : s = k
        · exact Or.inl hks
        · exact Or.inr ⟨by omega, by omega,
            by rw [show i + 1 + (s - (k + 1)) = i + (s - k) by omega]; exact h3⟩
    · have hrw : loopEnds pubFails keepOpen i k (n + 1) =
          loopEnds pubFails keepOpen (i + 1) (k + 1) n := by
        simp [loopEnds, hc]
      rw [hrw]
      rw [ih (i + 1) (k + 1)]
      constructor
      · rintro ⟨h1, h2, h3⟩
        exact ⟨by omega, by omega,
          by rw [show i + (s - k) = i + 1 + (s - (k + 1)) by omega]; exact h3⟩
      · rintro ⟨h1, h2, h3⟩
        by_cases hks : s = k
        · subst hks
          rw [Nat.sub_self, Nat.add_zero] at h3
          exact absurd h3 hc
        · exact ⟨by omega, by omega,
            by rw [show i + 1 + (s - (k + 1)) = i + (s - k) by omega]; exact h3⟩

theorem loopEnds_nodup (pubFails : Nat → Bool) (keepOpen : Bool) :
    ∀ (n i k : Nat), (loopEnds pubFails keepOpen i k n).Nodup := by
  intro n
  induction n with
  | zero => intro i k; simp [loopEnds]
  | succ n ih =>
    intro i k
    by_cases hc : (pubFails i || !keepOpen) = true
    · have hrw : loopEnds pubFails keepOpen i k (n + 1) =
          k :: loopEnds pubFails keepOpen (i + 1) (k + 1) n := by
        simp [loopEnds, hc]
      rw [hrw, List.nodup_cons]
      refine ⟨?_, ih (i + 1) (k + 1)⟩
      intro hmem
      have := ((loopEnds_mem pubFails keepOpen n (i + 1) (k + 1) k).mp hmem).1
      omega
    · have hrw : loopEnds pubFails keepOpen i k (n + 1) =
          loopEnds pubFails keepOpen (i + 1) (k + 1) n := by
        simp [loopEnds, hc]
      rw [hrw]
      exact ih (i + 1) (k + 1)

/-- The publish loop ends span `s` exactly once when `s` is one of its
item spans and either that item's publish failed or spans are not kept
open; otherwise it never ends `s`. -/
theorem loopOps_endCount (pubFails : Nat → Bool) (genID : Nat → String)
    (keepOpen : Bool) (n i k s : Nat) :
    opsEndCount (loopOps pubFails genID keepOpen i k n) s =
      if k ≤ s ∧ s < k + n ∧ (pubFails (i + (s - k)) || !keepOpen) = true
      then 1 else 0 := by
  rw [opsEndCount_loopOps]
  by_cases h : s ∈ loopEnds pubFails keepOpen i k n
  · rw [natCount_of_nodup_mem (loopEnds_nodup pubFails keepOpen n i k) h,
      if_pos ((loopEnds_mem pubFails keepOpen n i k s).mp h)]
  · rw [natCount_of_not_mem h,
      if_neg (fun hc => h ((loopEnds_mem pubFails keepOpen n i k s).mpr hc))]


/-- The publish loop never calls AddLink. -/
theorem loopOps_linkCount (pubFails : Nat → Bool) (genID : Nat → String) :
    ∀ (n : Nat) (keepOpen : Bool) (i k s : Nat),
    opsLinkCount (loopOps pubFails genID keepOpen i k n) s = 0 := by
  intro n
  induction n with
  | zero => intro keepOpen i k s; simp [loopOps, opsLinkCount]
  | succ n ih =>
    intro keepOpen i k s
    by_cases hf : pubFails i = true <;> by_cases hk : keepOpen = true <;>
      simp [loopOps, hf, hk, opsLinkCount_cons, opsLinkCount_append, isLinkOf, ih]

theorem startSids_cons (o : SpanOp) (l : List SpanOp) :
    startSids (o :: l) =
      (match o with
        | SpanOp.start s _ _ _ => [s]
        | _ => []) ++ startSids l := by
  cases o <;> simp [startSids, List.filterMap_cons]

/-- The item spans started by the publish loop are exactly the handles
`k, k+1, ..., k+n-1`. -/
theorem loopOps_startSids (pubFails : Nat → Bool) (genID : Nat → String) :
    ∀ (n : Nat) (keepOpen : Bool) (i k : Nat),
    startSids (loopOps pubFails genID keepOpen i k n) = List.range' k n := by
  intro n
  induction n with
  | zero => intro keepOpen i k; simp [loopOps, startSids]
  | succ n ih =>
    intro keepOpen i k
    by_cases hf : pubFails i = true <;> by_cases hk : keepOpen = true <;>
      simp [loopOps, hf, hk, startSids_append, startSids_cons, ih,
        List.range'_succ]

/-- Membership in the loop's order-span registrations. -/
theorem loopPairs_mem (pubFails : Nat → Bool) (genID : Nat → String) :
    ∀ (n i k : Nat) (p : String × Nat),
    p ∈ loopPairs pubFails genID i k n ↔
      ∃ j, j < n ∧ pubFails (i + j) = false ∧ p = (genID (i + j), k + j) := by
  intro n
  induction n with
  | zero =>
    intro i k p
    simp [loopPairs]
  | succ n ih =>
    intro i k p
    by_cases hf : pubFails i = true
    · simp only [loopPairs, hf, if_true, List.nil_append, ih (i + 1) (k + 1) p]
      constructor
      · rintro ⟨j, hj, hpf, hp⟩
        exact ⟨j + 1, by omega, by rw [show i + (j + 1) = i + 1 + j by omega]; exact hpf,
          by rw [show i + (j + 1) = i + 1 + j by omega,
            show k + (j + 1) = k + 1 + j by omega]; exact hp⟩
      · rintro ⟨j, hj, hpf, hp⟩
        match j with
        | 0 => rw [Nat.add_zero] at hpf; exact absurd hf (by simp [hpf])
        | j + 1 =>
          exact ⟨j, by omega, by rw [show i + 1 + j = i + (j + 1) by omega]; exact hpf,
            by rw [show i + 1 + j = i + (j + 1) by omega,
              show k + 1 + j = k + (j + 1) by omega]; exact hp⟩
    · simp only [loopPairs, hf, Bool.false_eq_true, if_false, List.singleton_append,
        List.mem_cons, ih (i + 1) (k + 1) p]
      constructor
      · rintro (hp | ⟨j, hj, hpf, hp⟩)
        · exact ⟨0, by omega, by simpa using (Bool.not_eq_true _).mp hf, by simpa using hp⟩
        · exact ⟨j + 1, by omega, by rw [show i + (j + 1) = i + 1 + j by omega]; exact hpf,
            by rw [show i + (j + 1) = i + 1 + j by omega,
              show k + (j + 1) = k + 1 + j by omega]; exact hp⟩
      · rintro ⟨j, hj, hpf, hp⟩
        match j with
        | 0 => exact Or.inl (by simpa using hp)
        | j + 1 =>
          exact Or.inr ⟨j, by omega, by rw [show i + 1 + j = i + (j + 1) by omega]; exact hpf,
            by rw [show i + 1 + j = i + (j + 1) by omega,
              show k + 1 + j = k + (j + 1) by omega]; exact hp⟩

/-- The loop registers exactly as many spans as it publishes. -/
theorem loopPairs_length (pubFails : Nat → Bool) (genID : Nat → String) :
    ∀ (n i k : Nat),
    (loopPairs pubFails genID i k n).length = loopPub pubFails i n := by
  intro n
  induction n with
  | zero => intro i k; rfl
  | succ n ih =>
    intro i k
    by_cases hf : pubFails i = true <;>
      simp [loopPairs, loopPub, hf, ih (i + 1) (k + 1), Nat.add_comm]

/-- Registered span handles are pairwise distinct. -/
theorem loopPairs_sids_nodup (pubFails : Nat → Bool) (genID : Nat → String) :
    ∀ (n i k : Nat),
    ((loopPairs pubFails genID i k n).map Prod.snd).Nodup := by
  intro n
  induction n with
  | zero => intro i k; simp [loopPairs]
  | succ n ih =>
    intro i k
    by_cases hf : pubFails i = true
    · simpa [loopPairs, hf] using ih (i + 1) (k + 1)
    · simp only [loopPairs, hf, Bool.false_eq_true, if_false, List.singleton_append,
        List.map_cons, List.nodup_cons]
      refine ⟨?_, ih (i + 1) (k + 1)⟩
      intro hmem
      obtain ⟨p, hp, hps⟩ := List.mem_map.mp hmem
      obtain ⟨j, hj, hpf, hpe⟩ := (loopPairs_mem pubFails genID n (i + 1) (k + 1) p).mp hp
      rw [hpe] at hps
      simp at hps
      omega

theorem natCount_cons (a : Nat) (l : List Nat) (s : Nat) :
    natCount s (a :: l) = (if a = s then 1 else 0) + natCount s l := by
  by_cases h : a = s <;> simp [natCount, List.filter_cons, h, Nat.add_comm]

/-- Ending every registered span in a fold appends one End per entry. -/
theorem foldl_endSp_eq : ∀ (osp : List (String × Nat)) (L : TraceLog),
    osp.foldl (fun l p => l.endSp p.2) L =
      ⟨L.nextSid, L.ops ++ osp.map (fun p => SpanOp.endOp p.2)⟩ := by
  intro osp
  induction osp with
  | nil => intro L; simp
  | cons p rest ih =>
    intro L
    rw [List.foldl_cons, ih]
    simp [TraceLog.endSp, List.append_assoc]

/-- End invocations of the final sweep, per span handle. -/
theorem opsEndCount_endMap (osp : List (String × Nat)) (s : Nat) :
    opsEndCount (osp.map (fun p => SpanOp.endOp p.2)) s =
      natCount s (osp.map Prod.snd) := by
  induction osp with
  | nil => rfl
  | cons p rest ih =>
    simp [opsEndCount_cons, isEndOf, natCount_cons, ih]

theorem startSids_endMap (osp : List (String × Nat)) :
    startSids (osp.map (fun p => SpanOp.endOp p.2)) = [] := by
  induction osp with
  | nil => rfl
  | cons p rest ih => simpa [startSids_cons] using ih

/-- With an always-failing publish oracle nothing is published. -/
theorem loopPub_all_fail (pubFails : Nat → Bool) (hf : ∀ j, pubFails j = true) :
    ∀ (n i : Nat), loopPub pubFails i n = 0 := by
  intro n
  induction n with
  | zero => intro i; rfl
  | succ n ih => intro i; simp [loopPub, hf i, ih (i + 1)]

/-- With an always-failing publish oracle the last error recorded is the
final item's. -/
theorem loopLastErr_all_fail (pubFails : Nat → Bool) (genID : Nat → String)
    (hf : ∀ j, pubFails j = true) :
    ∀ (n : Nat), 0 < n → ∀ (i : Nat) (e : Option String),
    loopLastErr pubFails genID i e n = some (pubErrMsg (genID (i + n - 1))) := by
  intro n
  induction n with
  | zero => intro h; omega
  | succ n ih =>
    intro _ i e
    simp only [loopLastErr, hf i, if_true]
    match n, ih with
    | 0, _ => simp [loopLastErr]
    | n + 1, ih =>
      rw [ih (by omega) (i + 1) _]
      congr 1
      rw [show i + 1 + (n + 1) - 1 = i + (n + 1 + 1) - 1 by omega]

/-- Run of `publishInternal` with a positive count and zero successes:
the batch span records the last error and is ended exactly in closed
mode; the call fails. -/
theorem publishInternal_zero_eq (tid : Nat) (pubFails : Nat → Bool)
    (genID : Nat → String) (count : Int) (keepOpen : Bool) (q0 : List Order)
    (hc : 0 < count) (hz : loopPub pubFails 0 count.toNat = 0) :
    publishInternal tid pubFails genID count keepOpen q0 freshLog =
      ⟨⟨2 + count.toNat,
        (SpanOp.start 1 "PublishOrderBatch" SpanKind.producer [] ::
          loopOps pubFails genID keepOpen 0 2 count.toNat) ++
          SpanOp.recordError 1
              ((loopLastErr pubFails genID 0 none count.toNat).getD "") ::
            (if keepOpen then [] else [SpanOp.endOp 1])⟩,
       q0 ++ loopMsgs tid pubFails genID 0 2 count.toNat,
       loopPairs pubFails genID 0 2 count.toNat,
       0, some 1,
       some ("failed to publish any orders: " ++
         (loopLastErr pubFails genID 0 none count.toNat).getD "")⟩ := by
  unfold publishInternal
  rw [if_neg (by omega)]
  simp only [freshLog, TraceLog.start, List.filter_nil, List.nil_append]
  rw [publishLoop_eq]
  simp only [Nat.zero_add, hz, if_pos rfl]
  cases keepOpen <;>
    simp [TraceLog.recordError, TraceLog.endSp, List.append_assoc]

/-- Run of `publishInternal` with a positive count and at least one
success: the batch span gets the "Batch published" event; in closed
mode the batch span is ended and then every registered span is ended
again by the final sweep. -/
theorem publishInternal_pos_eq (tid : Nat) (pubFails : Nat → Bool)
    (genID : Nat → String) (count : Int) (keepOpen : Bool) (q0 : List Order)
    (hc : 0 < count) (hnz : loopPub pubFails 0 count.toNat ≠ 0) :
    publishInternal tid pubFails genID count keepOpen q0 freshLog =
      ⟨⟨2 + count.toNat,
        (SpanOp.start 1 "PublishOrderBatch" SpanKind.producer [] ::
          loopOps pubFails genID keepOpen 0 2 count.toNat) ++
          SpanOp.addEvent 1 "Batch published" ::
            (if keepOpen then [] else
              SpanOp.endOp 1 ::
                (loopPairs pubFails genID 0 2 count.toNat).map
                  (fun p => SpanOp.endOp p.2))⟩,
       q0 ++ loopMsgs tid pubFails genID 0 2 count.toNat,
       loopPairs pubFails genID 0 2 count.toNat,
       loopPub pubFails 0 count.toNat, some 1, none⟩ := by
  unfold publishInternal
  rw [if_neg (by omega)]
  simp only [freshLog, TraceLog.start, List.filter_nil, List.nil_append]
  rw [publishLoop_eq]
  simp only [Nat.zero_add, if_neg hnz]
  cases keepOpen
  · simp only [Bool.false_eq_true, if_false]
    rw [foldl_endSp_eq]
    simp [TraceLog.addEvent, TraceLog.endSp, List.append_assoc]
  · simp [TraceLog.addEvent, List.append_assoc]

/-- Registered span handles lie in the loop's handle range. -/
theorem loopPairs_sid_bounds (pubFails : Nat → Bool) (genID : Nat → String)
    (n i k s : Nat)
    (h : s ∈ (loopPairs pubFails genID i k n).map Prod.snd) :
    k ≤ s ∧ s < k + n := by
  obtain ⟨p, hp, hps⟩ := List.mem_map.mp h
  obtain ⟨j, hj, _, hpe⟩ := (loopPairs_mem pubFails genID n i k p).mp hp
  subst hps
  rw [hpe]
  simp only []
  omega

/-! ### Producer claims -/

/-- C9: for every count ≤ 0, `publishInternal` (and the closed-mode
wrapper `PublishOrderBatch`) returns the invalid-argument error with
the tracer log unchanged (no span created), the queue unchanged (no
message enqueued), no order spans and zero published. -/
theorem publish_nonpositive_rejected (tid : Nat) (pubFails : Nat → Bool)
    (genID : Nat → String) (count : Int) (keepOpen : Bool) (q0 : List Order)
    (L0 : TraceLog) (h : count ≤ 0) :
    publishInternal tid pubFails genID count keepOpen q0 L0 =
      ⟨L0, q0, [], 0, none, some "batch size must be greater than zero"⟩ ∧
    PublishOrderBatch tid pubFails genID count q0 L0 =
      ⟨L0, q0, [], 0, none, some "batch size must be greater than zero"⟩ := by
  constructor <;> simp [publishInternal, PublishOrderBatch, h]

/-- C9 witness: count 0 is rejected with nothing mutated. -/
theorem publish_nonpositive_rejected_witness :
    publishInternal 1 (fun _ => false) (fun i => toString i) 0 false [] freshLog =
      ⟨freshLog, [], [], 0, none, some "batch size must be greater than zero"⟩ ∧
    PublishOrderBatch 1 (fun _ => false) (fun i => toString i) 0 [] freshLog =
      ⟨freshLog, [], [], 0, none, some "batch size must be greater than zero"⟩ :=
  publish_nonpositive_rejected 1 (fun _ => false) (fun i => toString i) 0 false
    [] freshLog (by decide)

/-- C3 counterexample: in closed mode with one successfully published
item, that item span's End is invoked twice (once inside the loop,
once in the final sweep over the order-span map), so "no span's End is
invoked more than once" fails. -/
theorem closed_double_end_cex :
    (PublishOrderBatch 1 (fun _ => false) (fun i => toString i) 1 []
        freshLog).orderSpans = [("0", 2)] ∧
    (PublishOrderBatch 1 (fun _ => false) (fun i => toString i) 1 []
        freshLog).log.endCount 2 = 2 := by
  decide

/-- C3 (amended): in closed mode, every span is ended before
`PublishOrderBatch` returns: the batch span's End is invoked exactly
once, every span absent from the order-span map (the batch span and
the failed item spans) is ended exactly once, but each successfully
published item span's End is invoked exactly twice — once inside the
loop and once more in the final sweep (the second End is a no-op in
the OTel SDK, so each span is still exported once). -/
theorem closed_mode_end_counts (tid : Nat) (pubFails : Nat → Bool)
    (genID : Nat → String) (count : Int) (q0 : List Order) (hc : 0 < count) :
    (PublishOrderBatch tid pubFails genID count q0 freshLog).batchSpan = some 1 ∧
    (PublishOrderBatch tid pubFails genID count q0 freshLog).log.endCount 1 = 1 ∧
    (∀ p ∈ (PublishOrderBatch tid pubFails genID count q0 freshLog).orderSpans,
      (PublishOrderBatch tid pubFails genID count q0 freshLog).log.endCount p.2 = 2) ∧
    (∀ s ∈ startSids
        (PublishOrderBatch tid pubFails genID count q0 freshLog).log.ops,
      s ∉ ((PublishOrderBatch tid pubFails genID count q0
          freshLog).orderSpans.map Prod.snd) →
      (PublishOrderBatch tid pubFails genID count q0 freshLog).log.endCount s = 1) := by
  rw [PublishOrderBatch]
  by_cases hz : loopPub pubFails 0 count.toNat = 0
  · rw [publishInternal_zero_eq tid pubFails genID count false q0 hc hz]
    simp only [Bool.false_eq_true, if_false]
    have hosp : loopPairs pubFails genID 0 2 count.toNat = [] :=
      List.length_eq_zero.mp (by rw [loopPairs_length]; exact hz)
    refine ⟨trivial, ?_, ?_, ?_⟩
    · simp [endCount_eq_opsEndCount, opsEndCount_append, opsEndCount_cons,
        opsEndCount_nil, isEndOf, loopOps_endCount]
    · intro p hp
      simp [hosp] at hp
    · intro s hs _
      simp [startSids_append, startSids_cons, startSids_nil, loopOps_startSids,
        List.mem_range'_1] at hs
      rcases hs with rfl | hrange
      · simp [endCount_eq_opsEndCount, opsEndCount_append, opsEndCount_cons,
          opsEndCount_nil, isEndOf, loopOps_endCount]
      · have h1 : ¬ (1 = s) := by omega
        simp [endCount_eq_opsEndCount, opsEndCount_append, opsEndCount_cons,
          opsEndCount_nil, isEndOf, loopOps_endCount, h1, hrange.1, hrange.2]
  · rw [publishInternal_pos_eq tid pubFails genID count false q0 hc hz]
    simp only [Bool.false_eq_true, if_false]
    have hnodup := loopPairs_sids_nodup pubFails genID count.toNat 0 2
    have h1nm : (1 : Nat) ∉ (loopPairs pubFails genID 0 2 count.toNat).map Prod.snd := by
      intro hmem
      exact absurd (loopPairs_sid_bounds pubFails genID count.toNat 0 2 1 hmem).1
        (by omega)
    refine ⟨trivial, ?_, ?_, ?_⟩
    · simp [endCount_eq_opsEndCount, opsEndCount_append, opsEndCount_cons,
        opsEndCount_nil, isEndOf, loopOps_endCount, opsEndCount_endMap,
        natCount_of_not_mem h1nm]
    · intro p hp
      have hp2 : p ∈ loopPairs pubFails genID 0 2 count.toNat := hp
      have hmem : p.2 ∈ (loopPairs pubFails genID 0 2 count.toNat).map Prod.snd :=
        List.mem_map.mpr ⟨p, hp2, rfl⟩
      have hb := loopPairs_sid_bounds pubFails genID count.toNat 0 2 p.2 hmem
      have h1 : ¬ (1 = p.2) := by omega
      have hnc := natCount_of_nodup_mem hnodup hmem
      simp [endCount_eq_opsEndCount, opsEndCount_append, opsEndCount_cons,
        opsEndCount_nil, isEndOf, loopOps_endCount, opsEndCount_endMap,
        h1, hb.1, hb.2, hnc]
    · intro s hs hnm
      have hnm2 : s ∉ (loopPairs pubFails genID 0 2 count.toNat).map Prod.snd := hnm
      simp [startSids_append, startSids_cons, startSids_nil, loopOps_startSids,
        startSids_endMap, List.mem_range'_1] at hs
      rcases hs with rfl | hrange
      · simp [endCount_eq_opsEndCount, opsEndCount_append, opsEndCount_cons,
          opsEndCount_nil, isEndOf, loopOps_endCount, opsEndCount_endMap,
          natCount_of_not_mem h1nm]
      · have h1 : ¬ (1 = s) := by omega
        simp [endCount_eq_opsEndCount, opsEndCount_append, opsEndCount_cons,
          opsEndCount_nil, isEndOf, loopOps_endCount, opsEndCount_endMap,
          natCount_of_not_mem hnm2, h1, hrange.1, hrange.2]

/-- C3 witness: batch of 2 in closed mode with all publishes
successful. -/
theorem closed_mode_end_counts_witness :
    (PublishOrderBatch 1 (fun _ => false) (fun i => toString i) 2 []
        freshLog).batchSpan = some 1 ∧
    (PublishOrderBatch 1 (fun _ => false) (fun i => toString i) 2 []
        freshLog).log.endCount 1 = 1 ∧
    (∀ p ∈ (PublishOrderBatch 1 (fun _ => false) (fun i => toString i) 2 []
        freshLog).orderSpans,
      (PublishOrderBatch 1 (fun _ => false) (fun i => toString i) 2 []
        freshLog).log.endCount p.2 = 2) ∧
    (∀ s ∈ startSids (PublishOrderBatch 1 (fun _ => false)
        (fun i => toString i) 2 [] freshLog).log.ops,
      s ∉ ((PublishOrderBatch 1 (fun _ => false) (fun i => toString i) 2 []
        freshLog).orderSpans.map Prod.snd) →
      (PublishOrderBatch 1 (fun _ => false) (fun i => toString i) 2 []
        freshLog).log.endCount s = 1) :=
  closed_mode_end_counts 1 (fun _ => false) (fun i => toString i) 2 [] (by decide)

/-- C8 counterexample: with every publish failing in open mode
(`PublishOrderBatchWithOpenSpan`), the call fails with zero published
but the batch span is returned with its End never invoked, so "for
both exit modes the batch span ... is ended" fails. -/
theorem batch_all_fail_open_unended_cex :
    (PublishOrderBatchWithOpenSpan 1 (fun _ => true) (fun i => toString i) 1 []
        freshLog).error.isSome = true ∧
    (PublishOrderBatchWithOpenSpan 1 (fun _ => true) (fun i => toString i) 1 []
        freshLog).published = 0 ∧
    (PublishOrderBatchWithOpenSpan 1 (fun _ => true) (fun i => toString i) 1 []
        freshLog).batchSpan = some 1 ∧
    (PublishOrderBatchWithOpenSpan 1 (fun _ => true) (fun i => toString i) 1 []
        freshLog).log.endCount 1 = 0 := by
  decide

/-- C8 (amended): if every item publish fails, then in both exit modes
zero items are published, the batch span records the last item's error
and the whole call returns an error; the batch span's End is invoked
exactly once in closed mode but zero times in open mode, where the
still-open span is returned for the caller to end. -/
theorem batch_all_fail (tid : Nat) (pubFails : Nat → Bool)
    (genID : Nat → String) (count : Int) (keepOpen : Bool) (q0 : List Order)
    (hc : 0 < count) (hf : ∀ j, pubFails j = true) :
    (publishInternal tid pubFails genID count keepOpen q0 freshLog).published = 0 ∧
    (publishInternal tid pubFails genID count keepOpen q0 freshLog).error =
      some ("failed to publish any orders: " ++ pubErrMsg (genID (count.toNat - 1))) ∧
    SpanOp.recordError 1 (pubErrMsg (genID (count.toNat - 1))) ∈
      (publishInternal tid pubFails genID count keepOpen q0 freshLog).log.ops ∧
    (publishInternal tid pubFails genID count keepOpen q0 freshLog).log.endCount 1 =
      (if keepOpen then 0 else 1) := by
  have hz : loopPub pubFails 0 count.toNat = 0 := loopPub_all_fail pubFails hf _ _
  have hn : 0 < count.toNat := by omega
  have hle := loopLastErr_all_fail pubFails genID hf count.toNat hn 0 none
  rw [publishInternal_zero_eq tid pubFails genID count keepOpen q0 hc hz, hle]
  rw [show (0 : Nat) + count.toNat - 1 = count.toNat - 1 by omega]
  refine ⟨rfl, rfl, ?_, ?_⟩
  · simp
  · cases keepOpen <;>
      simp [endCount_eq_opsEndCount, opsEndCount_append, opsEndCount_cons,
        opsEndCount_nil, isEndOf, loopOps_endCount]

/-- C8 witness: one item, always-failing publish, closed mode. -/
theorem batch_all_fail_witness :
    (publishInternal 1 (fun _ => true) (fun i => toString i) 1 false []
        freshLog).published = 0 ∧
    (publishInternal 1 (fun _ => true) (fun i => toString i) 1 false []
        freshLog).error =
      some ("failed to publish any orders: " ++
        pubErrMsg (toString ((1 : Int).toNat - 1))) ∧
    SpanOp.recordError 1 (pubErrMsg (toString ((1 : Int).toNat - 1))) ∈
      (publishInternal 1 (fun _ => true) (fun i => toString i) 1 false []
        freshLog).log.ops ∧
    (publishInternal 1 (fun _ => true) (fun i => toString i) 1 false []
        freshLog).log.endCount 1 = (if false then 0 else 1) :=
  batch_all_fail 1 (fun _ => true) (fun i => toString i) 1 false [] (by decide)
    (fun _ => rfl)

/-! ### Forward-link collection (main.go `runForwardSingleBatch`)

The order-span map handed over by `PublishOrderBatchWithOpenSpan` is an
association list from order id to an optional span handle; Go's
`orderSpans[id] = nil` marking is the `none` value.  Keys are unique
(order ids are uuid-fresh, modelled by an injective generator). -/

/-- Go map read `orderSpans[key]`: value of the first entry with the
key, `none` when absent. -/
def lookupSpan : List (String × Option Nat) → String → Option (Option Nat)
  | [], _ => none
  | (o, v) :: rest, key => if o = key then some v else lookupSpan rest key

/-- Go map write `orderSpans[key] = nil`: clear the first entry with
the key. -/
def clearSpan : List (String × Option Nat) → String → List (String × Option Nat)
  | [], _ => []
  | (o, v) :: rest, key =>
    if o = key then (o, none) :: rest else (o, v) :: clearSpan rest key

/-- Keys of the order-span map. -/
def keyList (os : List (String × Option Nat)) : List String := os.map Prod.fst

/-- Handles of the not-yet-ended spans in the order-span map. -/
def sidList (os : List (String × Option Nat)) : List Nat := os.filterMap Prod.snd

/-- Order ids of a record list. -/
def idList (l : List OrderSpanContext) : List String :=
  l.map OrderSpanContext.OrderID

/-- First loop of `runForwardSingleBatch` (main.go lines 135-149): for
each collected record whose order id maps to a not-yet-ended publish
span, add the forward link, end the span, and clear the map entry. -/
def addLinksLoop : List OrderSpanContext → List (String × Option Nat) → TraceLog →
    List (String × Option Nat) × TraceLog
  | [], os, L => (os, L)
  | sc :: rest, os, L =>
    match lookupSpan os sc.OrderID with
    | some (some s) =>
      addLinksLoop rest (clearSpan os sc.OrderID) ((L.addLink s sc.Ctx).endSp s)
    | _ => addLinksLoop rest os L

/-- Second loop (main.go lines 151-157): end every publish span that
never received a consumer context. -/
def endRemaining : List (String × Option Nat) → TraceLog → TraceLog
  | [], L => L
  | (_, some s) :: rest, L => endRemaining rest (L.endSp s)
  | (_, none) :: rest, L => endRemaining rest L

/-- The collection phase keeps, of the records received before the
timeout, the valid ones up to the produced count (main.go lines
117-131). -/
def collectRecords (received : List OrderSpanContext) (produced : Nat) :
    List OrderSpanContext :=
  (received.filter (fun sc => sc.Ctx.isValid)).take produced

/-- `runForwardSingleBatch` (main.go lines 109-163): publish one batch
of `DefaultBatchSize` orders keeping spans open; on a publish error the
process exits fatally (modelled `none`).  Otherwise collect consumer
contexts, add per-order forward links and end those spans, end every
span that received no matching record, end the batch span, and finish.
Returns the final tracer log, the batch span handle and the order-span
registrations. -/
def runForwardSingleBatch (tid : Nat) (pubFails : Nat → Bool)
    (genID : Nat → String) (received : List OrderSpanContext)
    (q0 : List Order) : Option (TraceLog × Nat × List (String × Nat)) :=
  let r := PublishOrderBatchWithOpenSpan tid pubFails genID
    (DefaultBatchSize : Int) q0 freshLog
  match r.error, r.batchSpan with
  | none, some b =>
    let collected := collectRecords received r.published
    let os0 := r.orderSpans.map (fun p => (p.1, some p.2))
    let res := addLinksLoop collected os0 r.log
    let L2 := endRemaining res.1 res.2
    some (L2.endSp b, b, r.orderSpans)
  | _, _ => none

/-! ### Map-primitive lemmas -/

theorem lookupSpan_eq_none {os : List (String × Option Nat)} {key : String} :
    lookupSpan os key = none ↔ key ∉ keyList os := by
  induction os with
  | nil => simp [lookupSpan, keyList]
  | cons e rest ih =>
    obtain ⟨o, v⟩ := e
    by_cases h : o = key
    · subst h
      simp [lookupSpan, keyList]
    · simp [lookupSpan, keyList, h, Ne.symm h]
      simpa [keyList] using ih

theorem lookupSpan_mem {os : List (String × Option Nat)} {key : String}
    {v : Option Nat} (h : lookupSpan os key = some v) : (key, v) ∈ os := by
  induction os with
  | nil => cases h
  | cons e rest ih =>
    obtain ⟨o, w⟩ := e
    by_cases ho : o = key
    · subst ho
      simp [lookupSpan] at h
      subst h
      exact List.mem_cons_self _ _
    · simp [lookupSpan, ho] at h
      exact List.mem_cons_of_mem _ (ih h)

theorem mem_lookupSpan {os : List (String × Option Nat)} {key : String}
    {v : Option Nat} (hd : (keyList os).Nodup) (h : (key, v) ∈ os) :
    lookupSpan os key = some v := by
  induction os with
  | nil => cases h
  | cons e rest ih =>
    obtain ⟨o, w⟩ := e
    rw [keyList, List.map_cons, List.nodup_cons] at hd
    rcases List.mem_cons.mp h with he | he
    · cases he
      simp [lookupSpan]
    · have ho : o ≠ key := by
        intro hok
        exact hd.1 (List.mem_map.mpr ⟨(key, v), he, hok.symm⟩)
      simp [lookupSpan, ho]
      exact ih hd.2 he

theorem clearSpan_keyList (os : List (String × Option Nat)) (key : String) :
    keyList (clearSpan os key) = keyList os := by
  induction os with
  | nil => rfl
  | cons e rest ih =>
    obtain ⟨o, v⟩ := e
    by_cases h : o = key <;> simp [clearSpan, h, keyList] <;>
      simpa [keyList] using ih

theorem clearSpan_sidList_sublist (os : List (String × Option Nat)) (key : String) :
    (sidList (clearSpan os key)).Sublist (sidList os) := by
  induction os with
  | nil => simp [clearSpan]
  | cons e rest ih =>
    obtain ⟨o, v⟩ := e
    by_cases h : o = key
    · subst h
      cases v with
      | none => simp [clearSpan, sidList, List.filterMap_cons]
      | some s =>
        simp only [clearSpan, if_pos rfl, sidList, List.filterMap_cons]
        exact List.Sublist.cons s (List.Sublist.refl _)
    · cases v with
      | none => simpa [clearSpan, h, sidList, List.filterMap_cons] using ih
      | some s =>
        simp only [clearSpan, if_neg h, sidList, List.filterMap_cons]
        exact List.Sublist.cons₂ s ih

theorem mem_clearSpan_some {os : List (String × Option Nat)} {key o : String}
    {s : Nat} (hd : (keyList os).Nodup) :
    (o, some s) ∈ clearSpan os key ↔ o ≠ key ∧ (o, some s) ∈ os := by
  induction os with
  | nil => simp [clearSpan]
  | cons e rest ih =>
    obtain ⟨o2, v⟩ := e
    rw [keyList, List.map_cons, List.nodup_cons] at hd
    by_cases h : o2 = key
    · subst h
      rw [clearSpan, if_pos rfl]
      constructor
      · intro hmem
        rcases List.mem_cons.mp hmem with he | he
        · exact absurd (congrArg Prod.snd he) (by simp)
        · refine ⟨?_, List.mem_cons_of_mem _ he⟩
          intro hok
          exact hd.1 (List.mem_map.mpr ⟨(o, some s), he, hok⟩)
      · rintro ⟨hne, hmem⟩
        rcases List.mem_cons.mp hmem with he | he
        · exact absurd (congrArg Prod.fst he) hne
        · exact List.mem_cons_of_mem _ he
    · rw [clearSpan, if_neg h]
      constructor
      · intro hmem
        rcases List.mem_cons.mp hmem with he | he
        · have ho : o = o2 := congrArg Prod.fst he
          exact ⟨by rw [ho]; exact h, List.mem_cons.mpr (Or.inl he)⟩
        · obtain ⟨hne, hm⟩ := (ih hd.2).mp he
          exact ⟨hne, List.mem_cons_of_mem _ hm⟩
      · rintro ⟨hne, hmem⟩
        rcases List.mem_cons.mp hmem with he | he
        · exact List.mem_cons.mpr (Or.inl he)
        · exact List.mem_cons_of_mem _ ((ih hd.2).mpr ⟨hne, he⟩)

theorem mem_sidList {os : List (String × Option Nat)} {s : Nat} :
    s ∈ sidList os ↔ ∃ o, (o, some s) ∈ os := by
  constructor
  · intro h
    obtain ⟨a, ha, has⟩ := List.mem_filterMap.mp h
    exact ⟨a.1, by rwa [show (a.1, some s) = a by rw [← has]]⟩
  · rintro ⟨o, ho⟩
    exact List.mem_filterMap.mpr ⟨(o, some s), ho, rfl⟩

/-- A span handle determines its map entry when handles are unique. -/
theorem sid_key_unique {os : List (String × Option Nat)}
    (hsd : (sidList os).Nodup) {o1 o2 : String} {s : Nat}
    (h1 : (o1, some s) ∈ os) (h2 : (o2, some s) ∈ os) : o1 = o2 := by
  induction os with
  | nil => cases h1
  | cons e rest ih =>
    obtain ⟨oe, ve⟩ := e
    rcases List.mem_cons.mp h1 with he1 | he1 <;>
      rcases List.mem_cons.mp h2 with he2 | he2
    · rw [← he2] at he1
      exact congrArg Prod.fst he1
    · exfalso
      cases he1
      rw [sidList, List.filterMap_cons] at hsd
      simp only [List.nodup_cons] at hsd
      exact hsd.1 (mem_sidList.mpr ⟨o2, he2⟩)
    · exfalso
      cases he2
      rw [sidList, List.filterMap_cons] at hsd
      simp only [List.nodup_cons] at hsd
      exact hsd.1 (mem_sidList.mpr ⟨o1, he1⟩)
    · have hsd2 : (sidList rest).Nodup := by
        rw [sidList, List.filterMap_cons] at hsd
        cases ve with
        | none => exact hsd
        | some t =>
          simp only [List.nodup_cons] at hsd
          exact hsd.2
      exact ih hsd2 he1 he2

theorem idList_cons (sc : OrderSpanContext) (rest : List OrderSpanContext) :
    idList (sc :: rest) = sc.OrderID :: idList rest := rfl

/-- Does some collected record match a not-yet-ended entry holding
span handle `s`? -/
def hasMatch (collected : List OrderSpanContext)
    (os : List (String × Option Nat)) (s : Nat) : Bool :=
  os.any fun e => e.2 == some s && collected.any fun sc => sc.OrderID == e.1

theorem hasMatch_iff (collected : List OrderSpanContext)
    (os : List (String × Option Nat)) (s : Nat) :
    hasMatch collected os s = true ↔
      ∃ o, (o, some s) ∈ os ∧ o ∈ idList collected := by
  simp only [hasMatch, List.any_eq_true, Bool.and_eq_true, beq_iff_eq, idList,
    List.mem_map]
  constructor
  · rintro ⟨e, he, h2, sc, hsc, hid⟩
    refine ⟨e.1, ?_, sc, hsc, hid⟩
    rw [← h2]
    exact he
  · rintro ⟨o, ho, sc, hsc, hid⟩
    exact ⟨(o, some s), ho, rfl, sc, hsc, hid⟩

theorem addLinksLoop_step_none {sc : OrderSpanContext}
    {rest : List OrderSpanContext} {os : List (String × Option Nat)}
    {L : TraceLog} (hl : lookupSpan os sc.OrderID = none) :
    addLinksLoop (sc :: rest) os L = addLinksLoop rest os L := by
  rw [addLinksLoop, hl]

theorem addLinksLoop_step_cleared {sc : OrderSpanContext}
    {rest : List OrderSpanContext} {os : List (String × Option Nat)}
    {L : TraceLog} (hl : lookupSpan os sc.OrderID = some none) :
    addLinksLoop (sc :: rest) os L = addLinksLoop rest os L := by
  rw [addLinksLoop, hl]

theorem addLinksLoop_step_found {sc : OrderSpanContext}
    {rest : List OrderSpanContext} {os : List (String × Option Nat)}
    {L : TraceLog} {s0 : Nat} (hl : lookupSpan os sc.OrderID = some (some s0)) :
    addLinksLoop (sc :: rest) os L =
      addLinksLoop rest (clearSpan os sc.OrderID)
        ((L.addLink s0 sc.Ctx).endSp s0) := by
  rw [addLinksLoop, hl]

/-- The link loop appends, per span handle, exactly one AddLink and one
End when some collected record matches the handle's order id, and
nothing otherwise. -/
theorem addLinksLoop_counts :
    ∀ (collected : List OrderSpanContext) (os : List (String × Option Nat))
      (L : TraceLog) (s : Nat),
      (keyList os).Nodup → (sidList os).Nodup →
      opsEndCount (addLinksLoop collected os L).2.ops s =
        opsEndCount L.ops s + (if hasMatch collected os s then 1 else 0) ∧
      opsLinkCount (addLinksLoop collected os L).2.ops s =
        opsLinkCount L.ops s + (if hasMatch collected os s then 1 else 0) := by
  intro collected
  induction collected with
  | nil =>
    intro os L s _ _
    constructor <;> simp [addLinksLoop, hasMatch]
  | cons sc rest ih =>
    intro os L s hk hsd
    cases hl : lookupSpan os sc.OrderID with
    | none =>
      rw [addLinksLoop_step_none hl]
      have hpred : hasMatch (sc :: rest) os s = hasMatch rest os s := by
        rcases hm : hasMatch rest os s with _ | _
        · rw [Bool.eq_false_iff]
          intro hm2
          obtain ⟨o, ho, hid⟩ := (hasMatch_iff _ _ _).mp hm2
          rw [idList_cons] at hid
          rcases List.mem_cons.mp hid with rfl | hid2
          · exact (lookupSpan_eq_none.mp hl)
              (List.mem_map.mpr ⟨(sc.OrderID, some s), ho, rfl⟩)
          · exact (Bool.eq_false_iff.mp hm)
              ((hasMatch_iff _ _ _).mpr ⟨o, ho, hid2⟩)
        · obtain ⟨o, ho, hid⟩ := (hasMatch_iff _ _ _).mp hm
          exact (hasMatch_iff _ _ _).mpr
            ⟨o, ho, by rw [idList_cons]; exact List.mem_cons_of_mem _ hid⟩
      rw [hpred]
      exact ih os L s hk hsd
    | some v =>
      cases v with
      | none =>
        rw [addLinksLoop_step_cleared hl]
        have hpred : hasMatch (sc :: rest) os s = hasMatch rest os s := by
          rcases hm : hasMatch rest os s with _ | _
          · rw [Bool.eq_false_iff]
            intro hm2
            obtain ⟨o, ho, hid⟩ := (hasMatch_iff _ _ _).mp hm2
            rw [idList_cons] at hid
            rcases List.mem_cons.mp hid with rfl | hid2
            · have := mem_lookupSpan hk ho
              rw [hl] at this
              cases Option.some.inj this
            · exact (Bool.eq_false_iff.mp hm)
                ((hasMatch_iff _ _ _).mpr ⟨o, ho, hid2⟩)
          · obtain ⟨o, ho, hid⟩ := (hasMatch_iff _ _ _).mp hm
            exact (hasMatch_iff _ _ _).mpr
              ⟨o, ho, by rw [idList_cons]; exact List.mem_cons_of_mem _ hid⟩
        rw [hpred]
        exact ih os L s hk hsd
      | some s0 =>
        rw [addLinksLoop_step_found hl]
        have hmem0 : (sc.OrderID, some s0) ∈ os := lookupSpan_mem hl
        have hk2 : (keyList (clearSpan os sc.OrderID)).Nodup := by
          rw [clearSpan_keyList]; exact hk
        have hsd2 : (sidList (clearSpan os sc.OrderID)).Nodup :=
          (clearSpan_sidList_sublist os sc.OrderID).nodup hsd
        have hLe : opsEndCount ((L.addLink s0 sc.Ctx).endSp s0).ops s =
            opsEndCount L.ops s + (if s0 = s then 1 else 0) := by
          by_cases h0 : s0 = s <;>
            simp [TraceLog.addLink, TraceLog.endSp, opsEndCount_append,
              opsEndCount_cons, opsEndCount_nil, isEndOf, h0]
        have hLl : opsLinkCount ((L.addLink s0 sc.Ctx).endSp s0).ops s =
            opsLinkCount L.ops s + (if s0 = s then 1 else 0) := by
          by_cases h0 : s0 = s <;>
            simp [TraceLog.addLink, TraceLog.endSp, opsLinkCount_append,
              opsLinkCount_cons, opsLinkCount_nil, isLinkOf, h0]
        obtain ⟨ihe, ihl⟩ := ih (clearSpan os sc.OrderID)
          ((L.addLink s0 sc.Ctx).endSp s0) s hk2 hsd2
        rw [ihe, ihl, hLe, hLl]
        by_cases h0 : s0 = s
        · subst h0
          have hm : hasMatch (sc :: rest) os s0 = true :=
            (hasMatch_iff _ _ _).mpr ⟨sc.OrderID, hmem0,
              by rw [idList_cons]; exact List.mem_cons_self _ _⟩
          have hnm : hasMatch rest (clearSpan os sc.OrderID) s0 = false := by
            rw [Bool.eq_false_iff]
            intro hm2
            obtain ⟨o, ho, _⟩ := (hasMatch_iff _ _ _).mp hm2
            obtain ⟨hne, ho2⟩ := (mem_clearSpan_some hk).mp ho
            exact hne (sid_key_unique hsd ho2 hmem0)
          rw [hm, hnm]
          constructor <;> simp <;> omega
        · have hpred : hasMatch rest (clearSpan os sc.OrderID) s =
              hasMatch (sc :: rest) os s := by
            rcases hm : hasMatch (sc :: rest) os s with _ | _
            · rw [Bool.eq_false_iff]
              intro hm2
              obtain ⟨o, ho, hid⟩ := (hasMatch_iff _ _ _).mp hm2
              obtain ⟨hne, ho2⟩ := (mem_clearSpan_some hk).mp ho
              exact (Bool.eq_false_iff.mp hm) ((hasMatch_iff _ _ _).mpr
                ⟨o, ho2, by rw [idList_cons]; exact List.mem_cons_of_mem _ hid⟩)
            · obtain ⟨o, ho, hid⟩ := (hasMatch_iff _ _ _).mp hm
              have hne : o ≠ sc.OrderID := by
                intro hok
                subst hok
                have := mem_lookupSpan hk ho
                rw [hl] at this
                exact h0 (Option.some.inj (Option.some.inj this))
              refine (hasMatch_iff _ _ _).mpr
                ⟨o, (mem_clearSpan_some hk).mpr ⟨hne, ho⟩, ?_⟩
              rw [idList_cons] at hid
              rcases List.mem_cons.mp hid with h2 | h2
              · exact absurd h2 hne
              · exact h2
          rw [if_neg h0, hpred]
          constructor <;> omega

/-- The link loop starts no spans. -/
theorem addLinksLoop_startSids :
    ∀ (collected : List OrderSpanContext) (os : List (String × Option Nat))
      (L : TraceLog),
      startSids (addLinksLoop collected os L).2.ops = startSids L.ops := by
  intro collected
  induction collected with
  | nil => intro os L; rfl
  | cons sc rest ih =>
    intro os L
    cases hl : lookupSpan os sc.OrderID with
    | none =>
      rw [addLinksLoop_step_none hl]
      exact ih os L
    | some v =>
      cases v with
      | none =>
        rw [addLinksLoop_step_cleared hl]
        exact ih os L
      | some s0 =>
        rw [addLinksLoop_step_found hl, ih]
        simp [TraceLog.addLink, TraceLog.endSp, startSids_append, startSids_cons,
          startSids_nil]

/-- Surviving entries of the link loop are exactly the unmatched ones. -/
theorem addLinksLoop_result_mem :
    ∀ (collected : List OrderSpanContext) (os : List (String × Option Nat))
      (L : TraceLog) (o : String) (s : Nat), (keyList os).Nodup →
      ((o, some s) ∈ (addLinksLoop collected os L).1 ↔
        (o, some s) ∈ os ∧ o ∉ idList collected) := by
  intro collected
  induction collected with
  | nil =>
    intro os L o s _
    simp [addLinksLoop, idList]
  | cons sc rest ih =>
    intro os L o s hk
    cases hl : lookupSpan os sc.OrderID with
    | none =>
      rw [addLinksLoop_step_none hl, ih os L o s hk, idList_cons]
      constructor
      · rintro ⟨ho, hid⟩
        refine ⟨ho, ?_⟩
        intro hmem
        rcases List.mem_cons.mp hmem with rfl | h2
        · exact (lookupSpan_eq_none.mp hl)
            (List.mem_map.mpr ⟨(sc.OrderID, some s), ho, rfl⟩)
        · exact hid h2
      · rintro ⟨ho, hid⟩
        exact ⟨ho, fun hm => hid (List.mem_cons_of_mem _ hm)⟩
    | some v =>
      cases v with
      | none =>
        rw [addLinksLoop_step_cleared hl, ih os L o s hk, idList_cons]
        constructor
        · rintro ⟨ho, hid⟩
          refine ⟨ho, ?_⟩
          intro hmem
          rcases List.mem_cons.mp hmem with rfl | h2
          · have := mem_lookupSpan hk ho
            rw [hl] at this
            cases Option.some.inj this
          · exact hid h2
        · rintro ⟨ho, hid⟩
          exact ⟨ho, fun hm => hid (List.mem_cons_of_mem _ hm)⟩
      | some s0 =>
        have hk2 : (keyList (clearSpan os sc.OrderID)).Nodup := by
          rw [clearSpan_keyList]; exact hk
        rw [addLinksLoop_step_found hl, ih _ _ o s hk2, mem_clearSpan_some hk,
          idList_cons]
        constructor
        · rintro ⟨⟨hne, ho⟩, hid⟩
          refine ⟨ho, ?_⟩
          intro hmem
          rcases List.mem_cons.mp hmem with h2 | h2
          · exact hne h2
          · exact hid h2
        · rintro ⟨ho, hid⟩
          have hne : o ≠ sc.OrderID := by
            intro hok
            exact hid (by rw [hok]; exact List.mem_cons_self _ _)
          exact ⟨⟨hne, ho⟩, fun hm => hid (List.mem_cons_of_mem _ hm)⟩

/-- The link loop preserves the key set of the map. -/
theorem addLinksLoop_keyList :
    ∀ (collected : List OrderSpanContext) (os : List (String × Option Nat))
      (L : TraceLog),
      keyList (addLinksLoop collected os L).1 = keyList os := by
  intro collected
  induction collected with
  | nil => intro os L; rfl
  | cons sc rest ih =>
    intro os L
    cases hl : lookupSpan os sc.OrderID with
    | none =>
      rw [addLinksLoop_step_none hl]
      exact ih os L
    | some v =>
      cases v with
      | none =>
        rw [addLinksLoop_step_cleared hl]
        exact ih os L
      | some s0 => rw [addLinksLoop_step_found hl, ih, clearSpan_keyList]

/-- The link loop only removes span handles from the map. -/
theorem addLinksLoop_sidList_sublist :
    ∀ (collected : List OrderSpanContext) (os : List (String × Option Nat))
      (L : TraceLog),
      (sidList (addLinksLoop collected os L).1).Sublist (sidList os) := by
  intro collected
  induction collected with
  | nil => intro os L; exact List.Sublist.refl _
  | cons sc rest ih =>
    intro os L
    cases hl : lookupSpan os sc.OrderID with
    | none =>
      rw [addLinksLoop_step_none hl]
      exact ih os L
    | some v =>
      cases v with
      | none =>
        rw [addLinksLoop_step_cleared hl]
        exact ih os L
      | some s0 =>
        rw [addLinksLoop_step_found hl]
        exact (ih _ _).trans (clearSpan_sidList_sublist os sc.OrderID)

/-- The cleanup loop appends one End per surviving span handle. -/
theorem endRemaining_ops : ∀ (os : List (String × Option Nat)) (L : TraceLog),
    (endRemaining os L).ops = L.ops ++ (sidList os).map SpanOp.endOp := by
  intro os
  induction os with
  | nil => intro L; simp [endRemaining, sidList]
  | cons e rest ih =>
    intro L
    obtain ⟨o, v⟩ := e
    cases v with
    | none => simpa [endRemaining, sidList, List.filterMap_cons] using ih L
    | some s =>
      rw [show endRemaining ((o, some s) :: rest) L =
        endRemaining rest (L.endSp s) from rfl, ih]
      simp [TraceLog.endSp, sidList, List.filterMap_cons, List.append_assoc]

theorem opsEndCount_endMapNat (l : List Nat) (s : Nat) :
    opsEndCount (l.map SpanOp.endOp) s = natCount s l := by
  induction l with
  | nil => rfl
  | cons a rest ih =>
    simp [opsEndCount_cons, isEndOf, natCount_cons, ih]

theorem opsLinkCount_endMapNat (l : List Nat) (s : Nat) :
    opsLinkCount (l.map SpanOp.endOp) s = 0 := by
  induction l with
  | nil => rfl
  | cons a rest ih =>
    simp [opsLinkCount_cons, isLinkOf, ih]

theorem startSids_endMapNat (l : List Nat) :
    startSids (l.map SpanOp.endOp) = [] := by
  induction l with
  | nil => rfl
  | cons a rest ih => simpa [startSids_cons] using ih

/-! ### Shape of the forward-link run -/

/-- The tracer log right after `PublishOrderBatchWithOpenSpan` with the
default batch size 3: batch span 1 started, the publish loop run with
spans kept open, the "Batch published" event added. -/
def openBatchLog (pubFails : Nat → Bool) (genID : Nat → String) : TraceLog :=
  ⟨2 + 3,
    (SpanOp.start 1 "PublishOrderBatch" SpanKind.producer [] ::
      loopOps pubFails genID true 0 2 3) ++
      [SpanOp.addEvent 1 "Batch published"]⟩

theorem openBatchLog_endCount (pubFails : Nat → Bool) (genID : Nat → String)
    (s : Nat) :
    opsEndCount (openBatchLog pubFails genID).ops s =
      if 2 ≤ s ∧ s < 2 + 3 ∧ pubFails (s - 2) = true then 1 else 0 := by
  simp only [openBatchLog, List.cons_append, opsEndCount_cons, opsEndCount_append,
    opsEndCount_nil, isEndOf, loopOps_endCount]
  simp [Nat.zero_add]

theorem openBatchLog_linkCount (pubFails : Nat → Bool) (genID : Nat → String)
    (s : Nat) :
    opsLinkCount (openBatchLog pubFails genID).ops s = 0 := by
  simp [openBatchLog, opsLinkCount_cons, opsLinkCount_append, opsLinkCount_nil,
    isLinkOf, loopOps_linkCount]

theorem openBatchLog_startSids (pubFails : Nat → Bool) (genID : Nat → String) :
    startSids (openBatchLog pubFails genID).ops = 1 :: List.range' 2 3 := by
  simp [openBatchLog, startSids_append, startSids_cons, startSids_nil,
    loopOps_startSids]

/-- An all-failing batch makes `runForwardSingleBatch` exit fatally. -/
theorem runForwardSingleBatch_zero_eq (tid : Nat) (pubFails : Nat → Bool)
    (genID : Nat → String) (received : List OrderSpanContext) (q0 : List Order)
    (hz : loopPub pubFails 0 3 = 0) :
    runForwardSingleBatch tid pubFails genID received q0 = none := by
  rw [runForwardSingleBatch, PublishOrderBatchWithOpenSpan,
    publishInternal_zero_eq tid pubFails genID (DefaultBatchSize : Int) true q0
      (by decide)
      (show loopPub pubFails 0 ((DefaultBatchSize : Int)).toNat = 0 from hz)]

/-- Successful-run shape of `runForwardSingleBatch`. -/
theorem runForwardSingleBatch_pos_eq (tid : Nat) (pubFails : Nat → Bool)
    (genID : Nat → String) (received : List OrderSpanContext) (q0 : List Order)
    (hnz : loopPub pubFails 0 3 ≠ 0) :
    runForwardSingleBatch tid pubFails genID received q0 =
      some
        ((endRemaining
            (addLinksLoop (collectRecords received (loopPub pubFails 0 3))
              ((loopPairs pubFails genID 0 2 3).map (fun p => (p.1, some p.2)))
              (openBatchLog pubFails genID)).1
            (addLinksLoop (collectRecords received (loopPub pubFails 0 3))
              ((loopPairs pubFails genID 0 2 3).map (fun p => (p.1, some p.2)))
              (openBatchLog pubFails genID)).2).endSp 1,
          1, loopPairs pubFails genID 0 2 3) := by
  rw [runForwardSingleBatch, PublishOrderBatchWithOpenSpan,
    publishInternal_pos_eq tid pubFails genID (DefaultBatchSize : Int) true q0
      (by decide)
      (show loopPub pubFails 0 ((DefaultBatchSize : Int)).toNat ≠ 0 from hnz)]
  simp [openBatchLog, DefaultBatchSize]

/-! ### Bridges between the order-span map and the publish loop -/

theorem keyList_ofPairs (l : List (String × Nat)) :
    keyList (l.map (fun p => (p.1, some p.2))) = l.map Prod.fst := by
  induction l with
  | nil => rfl
  | cons p rest ih => simpa [keyList] using ih

theorem sidList_ofPairs (l : List (String × Nat)) :
    sidList (l.map (fun p => (p.1, some p.2))) = l.map Prod.snd := by
  induction l with
  | nil => rfl
  | cons p rest ih => simpa [sidList, List.filterMap_cons] using ih

theorem mem_ofPairs {l : List (String × Nat)} {o : String} {s : Nat} :
    (o, some s) ∈ l.map (fun p => (p.1, some p.2)) ↔ (o, s) ∈ l := by
  constructor
  · intro h
    obtain ⟨p, hp, he⟩ := List.mem_map.mp h
    rw [Prod.mk.injEq] at he
    have hps : p = (o, s) := by
      rw [Prod.ext_iff]
      exact ⟨he.1, Option.some.inj he.2⟩
    rwa [← hps]
  · intro h
    exact List.mem_map.mpr ⟨(o, s), h, rfl⟩

/-- Order ids registered by the publish loop are pairwise distinct when
the id generator is injective. -/
theorem loopPairs_keys_nodup (pubFails : Nat → Bool) (genID : Nat → String)
    (hg : ∀ a c, genID a = genID c → a = c) :
    ∀ (n i k : Nat), ((loopPairs pubFails genID i k n).map Prod.fst).Nodup := by
  intro n
  induction n with
  | zero => intro i k; simp [loopPairs]
  | succ n ih =>
    intro i k
    by_cases hf : pubFails i = true
    · simpa [loopPairs, hf] using ih (i + 1) (k + 1)
    · simp only [loopPairs, hf, Bool.false_eq_true, if_false,
        List.singleton_append, List.map_cons, List.nodup_cons]
      refine ⟨?_, ih (i + 1) (k + 1)⟩
      intro hmem
      obtain ⟨p, hp, hps⟩ := List.mem_map.mp hmem
      obtain ⟨j, hj, _, hpe⟩ :=
        (loopPairs_mem pubFails genID n (i + 1) (k + 1) p).mp hp
      rw [hpe] at hps
      have := hg (i + 1 + j) i hps
      omega

/-- C2: in open mode, for every run of `runForwardSingleBatch` that
returns (publishing succeeded), every span handle started during the
run — the batch span, failed item spans, and every published item
span — has its End invoked exactly once; every published item span
whose order id matches a worker-finished record received before the
collection timeout carries exactly one added forward Link, and every
published item span with no matching record carries none and is still
ended exactly once.  No span handle is left unended and no span's End
is invoked twice. -/
theorem forward_link_collection (tid : Nat) (pubFails : Nat → Bool)
    (genID : Nat → String) (received : List OrderSpanContext) (q0 : List Order)
    (F : TraceLog) (b : Nat) (osp : List (String × Nat))
    (hg : ∀ a c, genID a = genID c → a = c)
    (h : runForwardSingleBatch tid pubFails genID received q0 = some (F, b, osp)) :
    (∀ s ∈ startSids F.ops, F.endCount s = 1) ∧
    (∀ p ∈ osp,
      (p.1 ∈ idList (collectRecords received osp.length) → F.linkCount p.2 = 1) ∧
      (p.1 ∉ idList (collectRecords received osp.length) → F.linkCount p.2 = 0) ∧
      p.2 ∈ startSids F.ops) ∧
    b ∈ startSids F.ops := by
  by_cases hz : loopPub pubFails 0 3 = 0
  · rw [runForwardSingleBatch_zero_eq tid pubFails genID received q0 hz] at h
    cases h
  · rw [runForwardSingleBatch_pos_eq tid pubFails genID received q0 hz] at h
    rw [Option.some.injEq, Prod.mk.injEq] at h
    obtain ⟨hF, hrest⟩ := h
    rw [Prod.mk.injEq] at hrest
    obtain ⟨hb, hosp⟩ := hrest
    subst hF
    subst hb
    subst hosp
    set pairs := loopPairs pubFails genID 0 2 3 with hpairs
    set os0 := pairs.map (fun p => (p.1, some p.2)) with hos0
    set collected := collectRecords received (loopPub pubFails 0 3) with hcol
    set res := addLinksLoop collected os0 (openBatchLog pubFails genID) with hres
    have hk0 : (keyList os0).Nodup := by
      rw [hos0, keyList_ofPairs]
      exact loopPairs_keys_nodup pubFails genID hg 3 0 2
    have hs0 : (sidList os0).Nodup := by
      rw [hos0, sidList_ofPairs, hpairs]
      exact loopPairs_sids_nodup pubFails genID 3 0 2
    have hsr : (sidList res.1).Nodup := by
      rw [hres]
      exact (addLinksLoop_sidList_sublist collected os0 _).nodup hs0
    have hFops : ((endRemaining res.1 res.2).endSp 1).ops =
        res.2.ops ++ ((sidList res.1).map SpanOp.endOp ++ [SpanOp.endOp 1]) := by
      rw [TraceLog.endSp, endRemaining_ops, List.append_assoc]
    have hstart : startSids ((endRemaining res.1 res.2).endSp 1).ops =
        1 :: List.range' 2 3 := by
      rw [hFops, startSids_append, startSids_append, startSids_endMapNat, hres,
        addLinksLoop_startSids, openBatchLog_startSids]
      simp [startSids_cons, startSids_nil]
    have hcount : ∀ s, opsEndCount ((endRemaining res.1 res.2).endSp 1).ops s =
        (if 2 ≤ s ∧ s < 2 + 3 ∧ pubFails (s - 2) = true then 1 else 0) +
        (if hasMatch collected os0 s then 1 else 0) +
        natCount s (sidList res.1) + (if 1 = s then 1 else 0) := by
      intro s
      rw [hFops, opsEndCount_append, opsEndCount_append, opsEndCount_endMapNat]
      have hAL := (addLinksLoop_counts collected os0
        (openBatchLog pubFails genID) s hk0 hs0).1
      rw [hres, hAL, openBatchLog_endCount]
      simp [opsEndCount_cons, opsEndCount_nil, isEndOf]
      omega
    have hlink : ∀ s, opsLinkCount ((endRemaining res.1 res.2).endSp 1).ops s =
        (if hasMatch collected os0 s then 1 else 0) := by
      intro s
      rw [hFops, opsLinkCount_append, opsLinkCount_append, opsLinkCount_endMapNat]
      have hAL := (addLinksLoop_counts collected os0
        (openBatchLog pubFails genID) s hk0 hs0).2
      rw [hres, hAL, openBatchLog_linkCount]
      simp [opsLinkCount_cons, opsLinkCount_nil, isLinkOf]
    have hmemres : ∀ s, s ∈ sidList res.1 ↔
        ∃ o, (o, s) ∈ pairs ∧ o ∉ idList collected := by
      intro s
      rw [mem_sidList]
      constructor
      · rintro ⟨o, ho⟩
        rw [hres] at ho
        obtain ⟨h1, h2⟩ :=
          (addLinksLoop_result_mem collected os0 _ o s hk0).mp ho
        rw [hos0, mem_ofPairs] at h1
        exact ⟨o, h1, h2⟩
      · rintro ⟨o, ho, hno⟩
        refine ⟨o, ?_⟩
        rw [hres]
        exact (addLinksLoop_result_mem collected os0 _ o s hk0).mpr
          ⟨by rw [hos0]; exact mem_ofPairs.mpr ho, hno⟩
    have hmatch : ∀ s, hasMatch collected os0 s = true ↔
        ∃ o, (o, s) ∈ pairs ∧ o ∈ idList collected := by
      intro s
      rw [hasMatch_iff]
      constructor
      · rintro ⟨o, ho, hid⟩
        rw [hos0, mem_ofPairs] at ho
        exact ⟨o, ho, hid⟩
      · rintro ⟨o, ho, hid⟩
        exact ⟨o, by rw [hos0]; exact mem_ofPairs.mpr ho, hid⟩
    have huniq : ∀ o1 o2 s, (o1, s) ∈ pairs → (o2, s) ∈ pairs → o1 = o2 := by
      intro o1 o2 s h1 h2
      exact sid_key_unique hs0 (by rw [hos0]; exact mem_ofPairs.mpr h1)
        (by rw [hos0]; exact mem_ofPairs.mpr h2)
    have hpb : ∀ o s, (o, s) ∈ pairs →
        2 ≤ s ∧ s < 2 + 3 ∧ pubFails (s - 2) = false := by
      intro o s hp
      rw [hpairs] at hp
      obtain ⟨j, hj, hpf, hpe⟩ :=
        (loopPairs_mem pubFails genID 3 0 2 (o, s)).mp hp
      rw [Prod.mk.injEq] at hpe
      refine ⟨by omega, by omega, ?_⟩
      rw [show s - 2 = j by omega]
      simpa using hpf
    have hnp : ∀ s, 2 ≤ s → s < 2 + 3 → s ∉ pairs.map Prod.snd →
        pubFails (s - 2) = true := by
      intro s h1 h2 hnm
      rcases hpf : pubFails (s - 2) with _ | _
      · exfalso
        apply hnm
        refine List.mem_map.mpr ⟨(genID (0 + (s - 2)), s), ?_, rfl⟩
        rw [hpairs]
        refine (loopPairs_mem pubFails genID 3 0 2 _).mpr
          ⟨s - 2, by omega, by simpa using hpf, ?_⟩
        rw [Prod.mk.injEq]
        exact ⟨rfl, by omega⟩
      · rfl
    have hsid_mem : ∀ o s, (o, s) ∈ pairs → s ∈ pairs.map Prod.snd :=
      fun o s hp => List.mem_map.mpr ⟨(o, s), hp, rfl⟩
    refine ⟨?_, ?_, ?_⟩
    · intro s hs
      rw [hstart] at hs
      rw [endCount_eq_opsEndCount, hcount s]
      rcases List.mem_cons.mp hs with rfl | hs2
      · have hm1 : hasMatch collected os0 1 = false := by
          rcases hm : hasMatch collected os0 1 with _ | _
          · rfl
          · obtain ⟨o, ho, _⟩ := (hmatch 1).mp hm
            have := (hpb o 1 ho).1
            omega
        have hn1 : (1 : Nat) ∉ sidList res.1 := by
          intro hmem
          obtain ⟨o, ho, _⟩ := (hmemres 1).mp hmem
          have := (hpb o 1 ho).1
          omega
        rw [hm1, natCount_of_not_mem hn1,
          if_neg (by rintro ⟨h1, h2, h3⟩; omega)]
        simp
      · have hrange := List.mem_range'_1.mp hs2
        have h1s : ¬ (1 = s) := by omega
        by_cases hsp : s ∈ pairs.map Prod.snd
        · obtain ⟨p, hp, hps⟩ := List.mem_map.mp hsp
          have hp2 : (p.1, s) ∈ pairs := by
            rw [show (p.1, s) = p from Prod.ext rfl hps.symm]
            exact hp
          have hpbs := hpb p.1 s hp2
          have hopen0 : ¬ (2 ≤ s ∧ s < 2 + 3 ∧ pubFails (s - 2) = true) := by
            rintro ⟨_, _, h3⟩
            rw [hpbs.2.2] at h3
            cases h3
          rcases hm : hasMatch collected os0 s with _ | _
          · have hmem : s ∈ sidList res.1 := by
              rw [hmemres s]
              refine ⟨p.1, hp2, ?_⟩
              intro hid
              exact absurd ((hmatch s).mpr ⟨p.1, hp2, hid⟩)
                (by rw [hm]; exact Bool.false_ne_true)
            rw [natCount_of_nodup_mem hsr hmem, if_neg hopen0, if_neg h1s]
            simp
          · have hnmem : s ∉ sidList res.1 := by
              intro hmem
              obtain ⟨o, ho, hno⟩ := (hmemres s).mp hmem
              obtain ⟨o2, ho2, hid2⟩ := (hmatch s).mp hm
              exact hno (huniq o o2 s ho ho2 ▸ hid2)
            rw [natCount_of_not_mem hnmem, if_neg hopen0, if_neg h1s]
            simp
        · have hopen1 : 2 ≤ s ∧ s < 2 + 3 ∧ pubFails (s - 2) = true :=
            ⟨hrange.1, by omega, hnp s hrange.1 (by omega) hsp⟩
          have hm0 : hasMatch collected os0 s = false := by
            rcases hm : hasMatch collected os0 s with _ | _
            · rfl
            · obtain ⟨o, ho, _⟩ := (hmatch s).mp hm
              exact absurd (hsid_mem o s ho) hsp
          have hnmem : s ∉ sidList res.1 := by
            intro hmem
            obtain ⟨o, ho, _⟩ := (hmemres s).mp hmem
            exact absurd (hsid_mem o s ho) hsp
          rw [natCount_of_not_mem hnmem, if_pos hopen1, hm0, if_neg h1s]
          simp
    · intro p hp
      have hlen : collectRecords received pairs.length = collected := by
        rw [hcol]
        congr 1
        rw [hpairs]
        exact loopPairs_length pubFails genID 3 0 2
      have hp2 : (p.1, p.2) ∈ pairs := hp
      have hmiff : hasMatch collected os0 p.2 = true ↔ p.1 ∈ idList collected := by
        constructor
        · intro hm
          obtain ⟨o, ho, hid⟩ := (hmatch p.2).mp hm
          rwa [huniq o p.1 p.2 ho hp2] at hid
        · intro hid
          exact (hmatch p.2).mpr ⟨p.1, hp2, hid⟩
      refine ⟨?_, ?_, ?_⟩
      · intro hid
        rw [hlen] at hid
        rw [linkCount_eq_opsLinkCount, hlink p.2, if_pos (hmiff.mpr hid)]
      · intro hid
        rw [hlen] at hid
        rw [linkCount_eq_opsLinkCount, hlink p.2,
          if_neg (fun hm => hid (hmiff.mp hm))]
      · rw [hstart]
        have := (hpb p.1 p.2 hp2).1
        have h2 := (hpb p.1 p.2 hp2).2.1
        exact List.mem_cons.mpr (Or.inr (List.mem_range'_1.mpr ⟨by omega, by omega⟩))
    · rw [hstart]
      exact List.mem_cons_self _ _

/-- Injective order-id generator for the witness run. -/
def wGen (i : Nat) : String := String.mk (List.replicate i 'a')

theorem wGen_inj : ∀ a c, wGen a = wGen c → a = c := by
  intro a c h
  have h2 := congrArg (fun t => t.data.length) h
  simpa [wGen] using h2

/-- Concrete forward-link run for the witness: all publishes succeed and
one valid worker record matches the first order. -/
def fwdDemoTriple : TraceLog × Nat × List (String × Nat) :=
  (runForwardSingleBatch 1 (fun _ => false) wGen
    [⟨wGen 0, ⟨7, 7, 1, false⟩⟩] []).getD (freshLog, 0, [])

/-- C2 witness: the concrete run ends every started span exactly once
and links exactly the matched item span. -/
theorem forward_link_collection_witness :
    (∀ s ∈ startSids fwdDemoTriple.1.ops, fwdDemoTriple.1.endCount s = 1) ∧
    (∀ p ∈ fwdDemoTriple.2.2,
      (p.1 ∈ idList (collectRecords [⟨wGen 0, ⟨7, 7, 1, false⟩⟩]
          fwdDemoTriple.2.2.length) →
        fwdDemoTriple.1.linkCount p.2 = 1) ∧
      (p.1 ∉ idList (collectRecords [⟨wGen 0, ⟨7, 7, 1, false⟩⟩]
          fwdDemoTriple.2.2.length) →
        fwdDemoTriple.1.linkCount p.2 = 0) ∧
      p.2 ∈ startSids fwdDemoTriple.1.ops) ∧
    fwdDemoTriple.2.1 ∈ startSids fwdDemoTriple.1.ops :=
  forward_link_collection 1 (fun _ => false) wGen
    [⟨wGen 0, ⟨7, 7, 1, false⟩⟩] [] fwdDemoTriple.1 fwdDemoTriple.2.1
    fwdDemoTriple.2.2 wGen_inj (by decide)

end SpanLinks
